import Mathlib

/-!
particleSim: a Verlet cloth simulation

A shallow embedding of `particle.h`, `constraint.h`, `user.h` and the mesh code of
`main.cpp`, followed by the properties proved about it.

Modelling conventions:

* A C++ `float` is read in exact arithmetic: it is either a number of an ordered
  field `α` (`Flt.fin v`) or the invalid value `Flt.nan`.  Sums, differences, products
  and quotients of numbers are the exact ones.  What binary32 adds is not modelled:
  rounding, overflow to an infinity (a quotient by a tiny non-zero divisor, such as
  `(L - 30) / L` for `L = 1e-38`) and underflow to zero (a product of two tiny
  numbers, such as `ABx * ABx` for `ABx = 1e-30`).
* A division by exactly zero gives `Flt.nan`, and `nan` is absorbing.  In IEEE
  arithmetic such a quotient is an infinity or NaN; at the two divisions of the program
  (`Constraint::satisfy`, `point_to_segment_distance`) an exactly zero divisor comes
  with a zero vector that the quotient is multiplied with, so the value that reaches
  the state or the result is NaN in both readings.  Every comparison with `nan` is
  false, as in IEEE arithmetic.
* Theorems whose statements involve only guards, copies and comparisons hold of the
  binary32 program as they stand.  Theorems about computed values are statements of
  exact real arithmetic.
* `std::sqrt` is a parameter `sqrt : α → α`; the theorems instantiate it with
  `Real.sqrt` over `ℝ`.  `std::hypot x y` is `sqrt (x * x + y * y)`.
* A `Particle*` is an index into the particle vector; the vector is a `List`.
  Member functions that write through the pointers take and return that list.
-/

namespace ParticleSim

/-! ## Scalars -/

/-- Exact-arithmetic reading of a C++ `float`: a number, or the invalid value.  The
infinities, rounding and the finite range of binary32 are not represented. -/
inductive Flt (α : Type) where
  | fin (v : α)
  | nan
  deriving DecidableEq, Repr

namespace Flt

variable {α : Type} [LinearOrderedField α]

/-- Float addition. -/
def add : Flt α → Flt α → Flt α
  | fin a, fin b => fin (a + b)
  | _, _ => nan

/-- Float subtraction. -/
def sub : Flt α → Flt α → Flt α
  | fin a, fin b => fin (a - b)
  | _, _ => nan

/-- Float multiplication, exact on numbers (no rounding, no underflow to zero). -/
def mul : Flt α → Flt α → Flt α
  | fin a, fin b => fin (a * b)
  | _, _ => nan

/-- Float division, exact on numbers (no rounding, no overflow to an infinity for a tiny
divisor); dividing by exactly zero gives the invalid value. -/
def div : Flt α → Flt α → Flt α
  | fin a, fin b => if b = 0 then nan else fin (a / b)
  | _, _ => nan

instance : Add (Flt α) := ⟨add⟩
instance : Sub (Flt α) := ⟨sub⟩
instance : Mul (Flt α) := ⟨mul⟩
instance : Div (Flt α) := ⟨div⟩

/-- The comparison `a < b` of two floats; false when either is invalid. -/
def lt : Flt α → Flt α → Bool
  | fin a, fin b => decide (a < b)
  | _, _ => false

/-- The comparison `a > b` of two floats; false when either is invalid. -/
def gt (a b : Flt α) : Bool := lt b a

/-- The function `std::sqrt`: invalid on negative numbers. -/
def sqrt (s : α → α) : Flt α → Flt α
  | fin a => if a < 0 then nan else fin (s a)
  | nan => nan

/-- The function `std::hypot` in exact arithmetic. -/
def hypot (s : α → α) (x y : Flt α) : Flt α := sqrt s (x * x + y * y)

end Flt

/-! ## `sf::Vector2f` -/

/-- The type `sf::Vector2f`. -/
@[ext]
structure Vec2 (α : Type) where
  x : Flt α
  y : Flt α
  deriving DecidableEq, Repr

namespace Vec2

variable {α : Type} [LinearOrderedField α]

/-- Component-wise `operator+`. -/
def add (u v : Vec2 α) : Vec2 α := ⟨u.x + v.x, u.y + v.y⟩

/-- Component-wise `operator-`. -/
def sub (u v : Vec2 α) : Vec2 α := ⟨u.x - v.x, u.y - v.y⟩

/-- The product `vector * float`. -/
def scale (u : Vec2 α) (k : Flt α) : Vec2 α := ⟨u.x * k, u.y * k⟩

instance : Add (Vec2 α) := ⟨add⟩
instance : Sub (Vec2 α) := ⟨sub⟩

end Vec2

/-! ## `particle.h` -/

/-- The class `Particle`. -/
structure Particle (α : Type) where
  position : Vec2 α
  previous_position : Vec2 α
  acceleration : Vec2 α
  is_pinned : Bool
  deriving DecidableEq, Repr

namespace Particle

variable {α : Type} [LinearOrderedField α]

/-- The constructor `Particle(x, y, pinned)`. -/
def new (x y : Flt α) (pinned : Bool) : Particle α :=
  { position := ⟨x, y⟩, previous_position := ⟨x, y⟩,
    acceleration := ⟨Flt.fin 0, Flt.fin 0⟩, is_pinned := pinned }

instance : Inhabited (Particle α) := ⟨new (Flt.fin 0) (Flt.fin 0) false⟩

/-- The member `Particle::apply_force`. -/
def apply_force (p : Particle α) (force : Vec2 α) : Particle α :=
  if !p.is_pinned then { p with acceleration := p.acceleration + force } else p

/-- The member `Particle::update` (Verlet integration). -/
def update (p : Particle α) (time_step : Flt α) : Particle α :=
  if !p.is_pinned then
    let velocity := p.position - p.previous_position
    { p with
      previous_position := p.position
      position := p.position + (velocity + (p.acceleration.scale time_step).scale time_step)
      acceleration := ⟨Flt.fin 0, Flt.fin 0⟩ }
  else p

/-- The member `Particle::constrain_to_bounds`: four assignments in sequence. -/
def constrain_to_bounds (p : Particle α) (width height : Flt α) : Particle α :=
  let x1 := if Flt.lt p.position.x (Flt.fin 0) then Flt.fin 0 else p.position.x
  let x2 := if Flt.gt x1 width then width else x1
  let y1 := if Flt.lt p.position.y (Flt.fin 0) then Flt.fin 0 else p.position.y
  let y2 := if Flt.gt y1 height then height else y1
  { p with position := ⟨x2, y2⟩ }

end Particle

/-! ## `constraint.h` -/

/-- The class `Constraint`; `p1` and `p2` are indices into the particle vector. -/
structure Constraint (α : Type) where
  p1 : Nat
  p2 : Nat
  initial_length : Flt α
  active : Bool
  deriving DecidableEq, Repr

/-- Dereferencing a `Particle*`. -/
def deref {α : Type} [LinearOrderedField α] (particles : List (Particle α)) (p : Nat) :
    Particle α :=
  particles.getD p default

namespace Constraint

variable {α : Type} [LinearOrderedField α]

/-- The constructor `Constraint(p1, p2)`: records the current separation. -/
def new (sqrt : α → α) (particles : List (Particle α)) (p1 p2 : Nat) : Constraint α :=
  { p1 := p1, p2 := p2,
    initial_length :=
      Flt.hypot sqrt ((deref particles p2).position.x - (deref particles p1).position.x)
        ((deref particles p2).position.y - (deref particles p1).position.y),
    active := true }

/-- The local `delta` of `Constraint::satisfy`: the vector from `p1` to `p2`. -/
def delta (c : Constraint α) (particles : List (Particle α)) : Vec2 α :=
  (deref particles c.p2).position - (deref particles c.p1).position

/-- The local `current_length` of `Constraint::satisfy`. -/
def current_length (sqrt : α → α) (c : Constraint α) (particles : List (Particle α)) : Flt α :=
  Flt.hypot sqrt (c.delta particles).x (c.delta particles).y

/-- The local `difference` of `Constraint::satisfy`. -/
def difference (sqrt : α → α) (c : Constraint α) (particles : List (Particle α)) : Flt α :=
  (c.current_length sqrt particles - c.initial_length) / c.current_length sqrt particles

/-- The local `correction` of `Constraint::satisfy`: `delta * 0.5f * difference`. -/
def correction (sqrt : α → α) (c : Constraint α) (particles : List (Particle α)) : Vec2 α :=
  ((c.delta particles).scale (Flt.fin 0.5)).scale (c.difference sqrt particles)

/-- The member `Constraint::satisfy`.  The two guarded writes happen in sequence
through the pointers, so the second sees the first when `p1 = p2`. -/
def satisfy (sqrt : α → α) (c : Constraint α) (particles : List (Particle α)) :
    List (Particle α) :=
  if !c.active then particles
  else
    let correction := c.correction sqrt particles
    let particles1 := particles.modify
      (fun p => if !p.is_pinned then { p with position := p.position + correction } else p) c.p1
    particles1.modify
      (fun p => if !p.is_pinned then { p with position := p.position - correction } else p) c.p2

/-- The member `Constraint::deactivate`. -/
def deactivate (c : Constraint α) : Constraint α := { c with active := false }

end Constraint

/-! ## `user.h` -/

section User

variable {α : Type} [LinearOrderedField α]

/-- The constant `CLICK_TOLERANCE`. -/
def CLICK_TOLERANCE : Flt α := Flt.fin 5

/-- The function `InputHandler::point_to_segment_distance`. -/
def point_to_segment_distance (sqrt : α → α) (px py x1 y1 x2 y2 : Flt α) : Flt α :=
  let ABx := x2 - x1
  let ABy := y2 - y1
  let APx := px - x1
  let APy := py - y1
  let BPx := px - x2
  let BPy := py - y2
  let AB_AP := ABx * APx + ABy * APy
  let AB_AB := ABx * ABx + ABy * ABy
  let t := AB_AP / AB_AB
  if Flt.lt t (Flt.fin 0) then
    Flt.sqrt sqrt (APx * APx + APy * APy)
  else if Flt.gt t (Flt.fin 1) then
    Flt.sqrt sqrt (BPx * BPx + BPy * BPy)
  else
    let proj_x := x1 + t * ABx
    let proj_y := y1 + t * ABy
    Flt.sqrt sqrt ((px - proj_x) * (px - proj_x) + (py - proj_y) * (py - proj_y))

/-- The distance from the mouse to the segment of one constraint, as computed in the
loop body of `find_nearest_constraint`. -/
def constraint_distance (sqrt : α → α) (mouse_x mouse_y : Flt α)
    (particles : List (Particle α)) (c : Constraint α) : Flt α :=
  point_to_segment_distance sqrt mouse_x mouse_y
    (deref particles c.p1).position.x (deref particles c.p1).position.y
    (deref particles c.p2).position.x (deref particles c.p2).position.y

/-- The loop of `find_nearest_constraint` from element `i` on, with the loop state
`nearest_constraint` (an index, `none` for `nullptr`) and `min_distance`. -/
def find_nearest_loop (sqrt : α → α) (mouse_x mouse_y : Flt α)
    (particles : List (Particle α)) :
    List (Constraint α) → Nat → Option Nat → Flt α → Option Nat
  | [], _, nearest_constraint, _ => nearest_constraint
  | c :: rest, i, nearest_constraint, min_distance =>
    let distance := constraint_distance sqrt mouse_x mouse_y particles c
    if Flt.lt distance min_distance then
      find_nearest_loop sqrt mouse_x mouse_y particles rest (i + 1) (some i) distance
    else
      find_nearest_loop sqrt mouse_x mouse_y particles rest (i + 1) nearest_constraint
        min_distance

/-- The function `InputHandler::find_nearest_constraint`; the result is the index of
the constraint pointed to, `none` for `nullptr`. -/
def find_nearest_constraint (sqrt : α → α) (mouse_x mouse_y : Flt α)
    (particles : List (Particle α)) (constraints : List (Constraint α)) : Option Nat :=
  find_nearest_loop sqrt mouse_x mouse_y particles constraints 0 none CLICK_TOLERANCE

/-- The two vectors owned by `main`. -/
structure World (α : Type) where
  particles : List (Particle α)
  constraints : List (Constraint α)
  deriving DecidableEq, Repr

/-- The function `InputHandler::tear_cloth`. -/
def tear_cloth (sqrt : α → α) (mouse_x mouse_y : Flt α) (w : World α) : World α :=
  match find_nearest_constraint sqrt mouse_x mouse_y w.particles w.constraints with
  | some nearest => { w with constraints := w.constraints.modify Constraint.deactivate nearest }
  | none => w

end User

/-! ## `main.cpp`: mesh construction -/

section Main

variable {α : Type} [LinearOrderedField α]

/-- The particle of grid cell `(row, col)` as constructed in `main`; `WIDTH / 3` and
`HEIGHT / 3` are integer divisions. -/
def grid_particle (REST_DISTANCE : α) (WIDTH HEIGHT : Nat) (row col : Nat) : Particle α :=
  Particle.new (Flt.fin ((col : α) * REST_DISTANCE + ((WIDTH / 3 : Nat) : α)))
    (Flt.fin ((row : α) * REST_DISTANCE + ((HEIGHT / 3 : Nat) : α))) (row == 0)

/-- The first double loop of `main`: the particles in row-major order. -/
def build_particles (ROW COL : Nat) (REST_DISTANCE : α) (WIDTH HEIGHT : Nat) :
    List (Particle α) :=
  ((List.range ROW).map fun row =>
    (List.range COL).map fun col => grid_particle REST_DISTANCE WIDTH HEIGHT row col).flatten

/-- The body of the second double loop of `main` for one cell. -/
def cell_constraints (sqrt : α → α) (particles : List (Particle α)) (ROW COL : Nat)
    (row col : Nat) : List (Constraint α) :=
  (if col + 1 < COL then
    [Constraint.new sqrt particles (row * COL + col) (row * COL + col + 1)] else []) ++
  (if row + 1 < ROW then
    [Constraint.new sqrt particles (row * COL + col) ((row + 1) * COL + col)] else [])

/-- The second double loop of `main`: the constraints in construction order. -/
def build_constraints (sqrt : α → α) (particles : List (Particle α)) (ROW COL : Nat) :
    List (Constraint α) :=
  ((List.range ROW).map fun row =>
    ((List.range COL).map fun col => cell_constraints sqrt particles ROW COL row col).flatten).flatten

/-- The world built by `main` before its simulation loop. -/
def build_world (sqrt : α → α) (ROW COL : Nat) (REST_DISTANCE : α) (WIDTH HEIGHT : Nat) :
    World α :=
  let particles := build_particles ROW COL REST_DISTANCE WIDTH HEIGHT
  { particles := particles, constraints := build_constraints sqrt particles ROW COL }

end Main

/-! ## `main.cpp`: simulation step -/

section Step

variable {α : Type} [LinearOrderedField α]

/-- The body of the physics loop of `main` for one particle: `apply_force`, `update`,
`constrain_to_bounds`.  The gravity vector, `TIME_STEP`, `WIDTH` and `HEIGHT` are
parameters. -/
def physics_step (force : Vec2 α) (time_step width height : Flt α) (p : Particle α) :
    Particle α :=
  ((p.apply_force force).update time_step).constrain_to_bounds width height

/-- The inner constraint loop of `main`: `satisfy()` on every constraint, active or not,
in container order. -/
def satisfy_all (sqrt : α → α) (constraints : List (Constraint α))
    (particles : List (Particle α)) : List (Particle α) :=
  constraints.foldl (fun ps c => c.satisfy sqrt ps) particles

/-- The outer constraint loop of `main`, run `n` times. -/
def relax (sqrt : α → α) (constraints : List (Constraint α)) :
    Nat → List (Particle α) → List (Particle α)
  | 0, particles => particles
  | n + 1, particles => relax sqrt constraints n (satisfy_all sqrt constraints particles)

/-- One iteration of the simulation loop of `main` after its event handling: the physics
loop over the particles, then five sweeps over the constraints. -/
def simulation_step (sqrt : α → α) (force : Vec2 α) (time_step width height : Flt α)
    (w : World α) : World α :=
  { w with
    particles := relax sqrt w.constraints 5
      (w.particles.map (physics_step force time_step width height)) }

/-- One relaxation pass in the words of the specification (section 4.3, item 4):
`satisfy()` for every active link, in container order. -/
def spec_relaxation_pass (sqrt : α → α) (links : List (Constraint α))
    (points : List (Particle α)) : List (Particle α) :=
  (links.filter fun l => l.active).foldl (fun ps l => l.satisfy sqrt ps) points

/-- The relaxation passes of the specification, repeated `K` times. -/
def spec_relaxation (sqrt : α → α) (links : List (Constraint α)) :
    Nat → List (Particle α) → List (Particle α)
  | 0, points => points
  | K + 1, points =>
    spec_relaxation sqrt links K (spec_relaxation_pass sqrt links points)

/-- The simulation step in the words of the specification (section 4.3): `apply_force`
for every point mass, then `integrate` for every point mass, then `clamp_to_bounds` for
every point mass, then exactly `K` relaxation passes over the active links. -/
def spec_simulation_step (sqrt : α → α) (K : Nat) (external_force : Vec2 α)
    (dt width height : Flt α) (w : World α) : World α :=
  let forced := w.particles.map fun p => p.apply_force external_force
  let integrated := forced.map fun p => p.update dt
  let clamped := integrated.map fun p => p.constrain_to_bounds width height
  { w with particles := spec_relaxation sqrt w.constraints K clamped }

/-- The operations of the core on the mesh: `constraints[k].satisfy()`,
`constraints[k].deactivate()`, `tear_cloth` and one simulation step. -/
inductive Operation (α : Type) where
  | satisfy (k : Nat)
  | deactivate (k : Nat)
  | tear_cloth (mouse_x mouse_y : Flt α)
  | simulation_step (force : Vec2 α) (time_step width height : Flt α)

/-- The effect of one operation on the mesh. -/
def Operation.run (sqrt : α → α) : Operation α → World α → World α
  | Operation.satisfy k, w =>
    match w.constraints[k]? with
    | some c => { w with particles := c.satisfy sqrt w.particles }
    | none => w
  | Operation.deactivate k, w =>
    { w with constraints := w.constraints.modify Constraint.deactivate k }
  | Operation.tear_cloth mouse_x mouse_y, w => ParticleSim.tear_cloth sqrt mouse_x mouse_y w
  | Operation.simulation_step force time_step width height, w =>
    ParticleSim.simulation_step sqrt force time_step width height w

/-- The effect of a finite sequence of operations, first operation first. -/
def run_operations (sqrt : α → α) (ops : List (Operation α)) (w : World α) : World α :=
  ops.foldl (fun s op => op.run sqrt s) w

end Step

/-! ## Sequences of calls -/

section Calls

variable {α : Type} [LinearOrderedField α]

/-- One call made on the particle vector: `particles[p].apply_force(force)`,
`particles[p].update(time_step)` or `c.satisfy()`. -/
inductive Call (α : Type) where
  | apply_force (p : Nat) (force : Vec2 α)
  | update (p : Nat) (time_step : Flt α)
  | satisfy (c : Constraint α)

/-- The effect of one call on the particle vector. -/
def Call.run (sqrt : α → α) : Call α → List (Particle α) → List (Particle α)
  | Call.apply_force p force, particles => particles.modify (fun q => q.apply_force force) p
  | Call.update p time_step, particles => particles.modify (fun q => q.update time_step) p
  | Call.satisfy c, particles => c.satisfy sqrt particles

/-- The effect of a finite sequence of calls, first call first. -/
def run_calls (sqrt : α → α) (calls : List (Call α)) (particles : List (Particle α)) :
    List (Particle α) :=
  calls.foldl (fun s k => k.run sqrt s) particles

end Calls

/-! ## Properties -/

section ScalarLemmas

variable {α : Type} [LinearOrderedField α]

@[simp] theorem Flt.fin_add_fin (a b : α) : (Flt.fin a + Flt.fin b : Flt α) = Flt.fin (a + b) := rfl
@[simp] theorem Flt.fin_sub_fin (a b : α) : (Flt.fin a - Flt.fin b : Flt α) = Flt.fin (a - b) := rfl
@[simp] theorem Flt.fin_mul_fin (a b : α) : (Flt.fin a * Flt.fin b : Flt α) = Flt.fin (a * b) := rfl
@[simp] theorem Flt.fin_div_fin (a b : α) :
    (Flt.fin a / Flt.fin b : Flt α) = if b = 0 then Flt.nan else Flt.fin (a / b) := rfl
@[simp] theorem Flt.nan_add (a : Flt α) : (Flt.nan + a : Flt α) = Flt.nan := rfl
@[simp] theorem Flt.add_nan (a : Flt α) : (a + Flt.nan : Flt α) = Flt.nan := by cases a <;> rfl
@[simp] theorem Flt.nan_sub (a : Flt α) : (Flt.nan - a : Flt α) = Flt.nan := rfl
@[simp] theorem Flt.sub_nan (a : Flt α) : (a - Flt.nan : Flt α) = Flt.nan := by cases a <;> rfl
@[simp] theorem Flt.nan_mul (a : Flt α) : (Flt.nan * a : Flt α) = Flt.nan := rfl
@[simp] theorem Flt.mul_nan (a : Flt α) : (a * Flt.nan : Flt α) = Flt.nan := by cases a <;> rfl
@[simp] theorem Flt.nan_div (a : Flt α) : (Flt.nan / a : Flt α) = Flt.nan := rfl
@[simp] theorem Flt.div_nan (a : Flt α) : (a / Flt.nan : Flt α) = Flt.nan := by cases a <;> rfl
@[simp] theorem Flt.lt_fin_fin (a b : α) : Flt.lt (Flt.fin a) (Flt.fin b) = decide (a < b) := rfl
@[simp] theorem Flt.lt_nan (a : Flt α) : Flt.lt a Flt.nan = false := by cases a <;> rfl
@[simp] theorem Flt.nan_lt (a : Flt α) : Flt.lt Flt.nan a = false := rfl
@[simp] theorem Flt.gt_fin_fin (a b : α) : Flt.gt (Flt.fin a) (Flt.fin b) = decide (b < a) := rfl
@[simp] theorem Flt.gt_nan (a : Flt α) : Flt.gt a Flt.nan = false := rfl
@[simp] theorem Flt.nan_gt (a : Flt α) : Flt.gt Flt.nan a = false := by cases a <;> rfl
@[simp] theorem Flt.sqrt_fin (s : α → α) (a : α) :
    Flt.sqrt s (Flt.fin a) = if a < 0 then Flt.nan else Flt.fin (s a) := rfl
@[simp] theorem Flt.sqrt_nan (s : α → α) : Flt.sqrt s (Flt.nan : Flt α) = Flt.nan := rfl

theorem Flt.assoc_add (a b c : Flt α) : a + b + c = a + (b + c) := by
  cases a <;> cases b <;> cases c <;> simp [add_assoc]

theorem Flt.assoc_mul (a b c : Flt α) : a * b * c = a * (b * c) := by
  cases a <;> cases b <;> cases c <;> simp [mul_assoc]

@[simp] theorem Vec2.add_x (u v : Vec2 α) : (u + v).x = u.x + v.x := rfl
@[simp] theorem Vec2.add_y (u v : Vec2 α) : (u + v).y = u.y + v.y := rfl
@[simp] theorem Vec2.sub_x (u v : Vec2 α) : (u - v).x = u.x - v.x := rfl
@[simp] theorem Vec2.sub_y (u v : Vec2 α) : (u - v).y = u.y - v.y := rfl
@[simp] theorem Vec2.scale_x (u : Vec2 α) (k : Flt α) : (u.scale k).x = u.x * k := rfl
@[simp] theorem Vec2.scale_y (u : Vec2 α) (k : Flt α) : (u.scale k).y = u.y * k := rfl

end ScalarLemmas

/-! ### `Particle::update` -/

section ParticleProperties

variable {α : Type} [LinearOrderedField α]

/-- C9: for an unpinned particle `update(dt)` stores the old position in
`previous_position`, moves `position` to `x + (x - x0) + F * dt^2`, zeroes the
accumulated force and keeps the pinned flag; for a pinned particle it changes no field. -/
theorem C9_update_spec (p : Particle α) (dt : Flt α) :
    (p.is_pinned = false →
      (p.update dt).previous_position = p.position ∧
      (p.update dt).position =
        p.position + (p.position - p.previous_position) + p.acceleration.scale (dt * dt) ∧
      (p.update dt).acceleration = ⟨Flt.fin 0, Flt.fin 0⟩ ∧
      (p.update dt).is_pinned = p.is_pinned) ∧
    (p.is_pinned = true → p.update dt = p) := by
  refine ⟨fun h => ?_, fun h => ?_⟩
  · refine ⟨?_, ?_, ?_, ?_⟩ <;> simp only [Particle.update, h] <;> try rfl
    ext <;> simp [Flt.assoc_add, Flt.assoc_mul]
  · simp [Particle.update, h]

/-- C9, on numbers: an unpinned particle at `(3, 4)` that came from `(1, 1)` under the
force `(0, 10)` moves with `dt = 1/2` to `(5, 19/2)`; the same particle pinned stays. -/
theorem C9_update_spec_witness :
    ((Particle.update (⟨⟨Flt.fin 3, Flt.fin 4⟩, ⟨Flt.fin 1, Flt.fin 1⟩,
        ⟨Flt.fin 0, Flt.fin 10⟩, false⟩ : Particle ℚ) (Flt.fin (1 / 2))).position
      = ⟨Flt.fin 5, Flt.fin (19 / 2)⟩) ∧
    (Particle.update (⟨⟨Flt.fin 3, Flt.fin 4⟩, ⟨Flt.fin 1, Flt.fin 1⟩,
        ⟨Flt.fin 0, Flt.fin 10⟩, true⟩ : Particle ℚ) (Flt.fin (1 / 2))
      = ⟨⟨Flt.fin 3, Flt.fin 4⟩, ⟨Flt.fin 1, Flt.fin 1⟩, ⟨Flt.fin 0, Flt.fin 10⟩, true⟩) := by
  refine ⟨?_, ?_⟩
  · rw [((C9_update_spec (⟨⟨Flt.fin 3, Flt.fin 4⟩, ⟨Flt.fin 1, Flt.fin 1⟩,
        ⟨Flt.fin 0, Flt.fin 10⟩, false⟩ : Particle ℚ) (Flt.fin (1 / 2))).1 rfl).2.1]
    ext <;> simp <;> norm_num
  · exact (C9_update_spec (⟨⟨Flt.fin 3, Flt.fin 4⟩, ⟨Flt.fin 1, Flt.fin 1⟩,
        ⟨Flt.fin 0, Flt.fin 10⟩, true⟩ : Particle ℚ) (Flt.fin (1 / 2))).2 rfl

theorem Particle.apply_force_pinned (p : Particle α) (force : Vec2 α)
    (hp : p.is_pinned = true) : p.apply_force force = p := by
  simp [Particle.apply_force, hp]

theorem Particle.update_pinned (p : Particle α) (dt : Flt α)
    (hp : p.is_pinned = true) : p.update dt = p := by
  simp [Particle.update, hp]

end ParticleProperties

/-! ### Writes through particle pointers -/

section Pointers

variable {α : Type} [LinearOrderedField α]

/-- A write through pointer `j` with a function that fixes the particle stored at `i`
leaves slot `i` as it was. -/
theorem getElem?_modify_of_fixed {β : Type} (f : β → β) (l : List β) (i j : Nat) (p : β)
    (hi : l[i]? = some p) (hf : f p = p) : (l.modify f j)[i]? = some p := by
  rw [List.getElem?_modify, hi]
  by_cases h : j = i <;> simp [h, hf]

theorem Constraint.satisfy_inactive_eq (sqrt : α → α) (c : Constraint α)
    (ps : List (Particle α)) (h : c.active = false) : c.satisfy sqrt ps = ps := by
  simp [Constraint.satisfy, h]

theorem Constraint.satisfy_length (sqrt : α → α) (c : Constraint α)
    (ps : List (Particle α)) : (c.satisfy sqrt ps).length = ps.length := by
  unfold Constraint.satisfy
  split <;> simp

/-- A pinned particle is never written by `satisfy`. -/
theorem Constraint.satisfy_pinned (sqrt : α → α) (c : Constraint α) (ps : List (Particle α))
    (i : Nat) (p : Particle α) (hi : ps[i]? = some p) (hp : p.is_pinned = true) :
    (c.satisfy sqrt ps)[i]? = some p := by
  unfold Constraint.satisfy
  split
  · exact hi
  · apply getElem?_modify_of_fixed
    · apply getElem?_modify_of_fixed _ _ _ _ _ hi
      simp [hp]
    · simp [hp]

/-- A pinned particle is never written by a call. -/
theorem Call.run_pinned (sqrt : α → α) (k : Call α) (ps : List (Particle α))
    (i : Nat) (p : Particle α) (hi : ps[i]? = some p) (hp : p.is_pinned = true) :
    (k.run sqrt ps)[i]? = some p := by
  cases k with
  | apply_force j force =>
    exact getElem?_modify_of_fixed _ _ _ _ _ hi (Particle.apply_force_pinned p force hp)
  | update j dt =>
    exact getElem?_modify_of_fixed _ _ _ _ _ hi (Particle.update_pinned p dt hp)
  | satisfy c => exact Constraint.satisfy_pinned sqrt c ps i p hi hp

/-- C4 (pin invariant): a pinned particle stored at index `i` is the same particle, in
particular at the same position, after any finite sequence of `apply_force`, `update`
and `satisfy` calls on any particles and links of the vector; and `apply_force`
followed by `update` on a pinned particle changes nothing. -/
theorem C4_pin_invariant (sqrt : α → α) (calls : List (Call α)) (ps : List (Particle α))
    (i : Nat) (p : Particle α) (hi : ps[i]? = some p) (hp : p.is_pinned = true) :
    (run_calls sqrt calls ps)[i]? = some p ∧
    ∀ (force : Vec2 α) (dt : Flt α), (p.apply_force force).update dt = p := by
  constructor
  · unfold run_calls
    induction calls generalizing ps with
    | nil => exact hi
    | cons k rest ih => exact ih (k.run sqrt ps) (Call.run_pinned sqrt k ps i p hi hp)
  · intro force dt
    rw [Particle.apply_force_pinned p force hp, Particle.update_pinned p dt hp]

/-- C4 on a pinned anchor at `(0, 0)` linked to a free particle at `(10, 0)`: gravity,
an integration step and a relaxation of a stretched link leave the anchor in place. -/
theorem C4_pin_invariant_witness :
    (run_calls Real.sqrt
        [Call.apply_force 0 ⟨Flt.fin 0, Flt.fin 10⟩, Call.update 0 (Flt.fin 0.1),
          Call.satisfy ⟨0, 1, Flt.fin 6, true⟩]
        [Particle.new (Flt.fin 0) (Flt.fin 0) true,
          Particle.new (Flt.fin 10) (Flt.fin 0) false])[0]?
      = some (Particle.new (Flt.fin 0) (Flt.fin 0) true) ∧
    ∀ (force : Vec2 ℝ) (dt : Flt ℝ),
      ((Particle.new (Flt.fin 0) (Flt.fin 0) true).apply_force force).update dt
        = Particle.new (Flt.fin 0) (Flt.fin 0) true :=
  C4_pin_invariant Real.sqrt _ _ 0 _ rfl rfl

end Pointers

/-! ### `point_to_segment_distance` and `find_nearest_constraint` -/

section UserProperties

variable {α : Type} [LinearOrderedField α]

theorem Flt.lt_eq_true_iff (a : Flt α) (m : α) :
    Flt.lt a (Flt.fin m) = true ↔ ∃ d, a = Flt.fin d ∧ d < m := by
  cases a <;> simp

theorem sum_sq_ne_zero (a b : α) (h : a ≠ 0 ∨ b ≠ 0) : a * a + b * b ≠ 0 := by
  intro h0
  have ha : a * a = 0 := by nlinarith [mul_self_nonneg a, mul_self_nonneg b]
  have hb : b * b = 0 := by nlinarith [mul_self_nonneg a, mul_self_nonneg b]
  rcases h with h | h
  · exact h (mul_self_eq_zero.1 ha)
  · exact h (mul_self_eq_zero.1 hb)

theorem sum_sq_not_neg (a b : α) : ¬ (a * a + b * b < 0) :=
  not_lt.2 (add_nonneg (mul_self_nonneg a) (mul_self_nonneg b))

/-- On numbers and a non-degenerate segment, `point_to_segment_distance` is the square
root of the squared distance to the point selected by its three branches. -/
theorem point_to_segment_distance_fin (s : α → α) (px py x1 y1 x2 y2 : α)
    (h : x2 - x1 ≠ 0 ∨ y2 - y1 ≠ 0) :
    point_to_segment_distance s (Flt.fin px) (Flt.fin py) (Flt.fin x1) (Flt.fin y1)
        (Flt.fin x2) (Flt.fin y2) =
      Flt.fin (s (
        if ((x2 - x1) * (px - x1) + (y2 - y1) * (py - y1)) /
            ((x2 - x1) * (x2 - x1) + (y2 - y1) * (y2 - y1)) < 0 then
          (px - x1) * (px - x1) + (py - y1) * (py - y1)
        else if 1 < ((x2 - x1) * (px - x1) + (y2 - y1) * (py - y1)) /
            ((x2 - x1) * (x2 - x1) + (y2 - y1) * (y2 - y1)) then
          (px - x2) * (px - x2) + (py - y2) * (py - y2)
        else
          (px - (x1 + ((x2 - x1) * (px - x1) + (y2 - y1) * (py - y1)) /
              ((x2 - x1) * (x2 - x1) + (y2 - y1) * (y2 - y1)) * (x2 - x1))) *
            (px - (x1 + ((x2 - x1) * (px - x1) + (y2 - y1) * (py - y1)) /
              ((x2 - x1) * (x2 - x1) + (y2 - y1) * (y2 - y1)) * (x2 - x1))) +
          (py - (y1 + ((x2 - x1) * (px - x1) + (y2 - y1) * (py - y1)) /
              ((x2 - x1) * (x2 - x1) + (y2 - y1) * (y2 - y1)) * (y2 - y1))) *
            (py - (y1 + ((x2 - x1) * (px - x1) + (y2 - y1) * (py - y1)) /
              ((x2 - x1) * (x2 - x1) + (y2 - y1) * (y2 - y1)) * (y2 - y1))))) := by
  have hq := sum_sq_ne_zero _ _ h
  simp only [point_to_segment_distance, Flt.fin_sub_fin, Flt.fin_mul_fin, Flt.fin_add_fin,
    Flt.fin_div_fin, if_neg hq, Flt.lt_fin_fin, Flt.gt_fin_fin, decide_eq_true_eq,
    Flt.sqrt_fin, if_neg (sum_sq_not_neg _ _)]
  split_ifs <;> rfl

/-- With coincident endpoints the projection parameter is `0/0`, and the function
returns the invalid value. -/
theorem point_to_segment_distance_degenerate (s : α → α) (px py x1 y1 : α) :
    point_to_segment_distance s (Flt.fin px) (Flt.fin py) (Flt.fin x1) (Flt.fin y1)
        (Flt.fin x1) (Flt.fin y1) = Flt.nan := by
  simp [point_to_segment_distance]

/-- The loop of `find_nearest_constraint`, started at index `i` with a numeric
`min_distance = m`: either no remaining link is strictly nearer than `m` and the
incoming result is returned, or the result is the first remaining link of least
distance, and that distance is below `m`. -/
theorem find_nearest_loop_spec (sqrt : α → α) (mx my : Flt α) (ps : List (Particle α)) :
    ∀ (cs : List (Constraint α)) (i : Nat) (nearest : Option Nat) (m : α),
      (find_nearest_loop sqrt mx my ps cs i nearest (Flt.fin m) = nearest ∧
        ∀ c ∈ cs, Flt.lt (constraint_distance sqrt mx my ps c) (Flt.fin m) = false) ∨
      (∃ k ck dk, cs[k]? = some ck ∧
        find_nearest_loop sqrt mx my ps cs i nearest (Flt.fin m) = some (i + k) ∧
        constraint_distance sqrt mx my ps ck = Flt.fin dk ∧ dk < m ∧
        (∀ c ∈ cs, Flt.lt (constraint_distance sqrt mx my ps c) (Flt.fin dk) = false) ∧
        ∀ j cj, j < k → cs[j]? = some cj →
          constraint_distance sqrt mx my ps cj ≠ Flt.fin dk) := by
  intro cs
  induction cs with
  | nil => intro i nearest m; left; simp [find_nearest_loop]
  | cons c rest ih =>
    intro i nearest m
    by_cases hlt : Flt.lt (constraint_distance sqrt mx my ps c) (Flt.fin m) = true
    · obtain ⟨d, hd, hdm⟩ := (Flt.lt_eq_true_iff _ _).1 hlt
      have hstep : find_nearest_loop sqrt mx my ps (c :: rest) i nearest (Flt.fin m)
          = find_nearest_loop sqrt mx my ps rest (i + 1) (some i) (Flt.fin d) := by
        simp [find_nearest_loop, hd, hdm]
      right
      rcases ih (i + 1) (some i) d with ⟨hr, hall⟩ | ⟨k, ck, dk, hk, hr, hdk, hlt2, hall, hfirst⟩
      · refine ⟨0, c, d, by simp, ?_, hd, hdm, ?_, ?_⟩
        · rw [hstep, hr]; rfl
        · intro c' hc'
          rcases List.mem_cons.1 hc' with rfl | hmem
          · simp [hd]
          · exact hall c' hmem
        · intro j cj hj; omega
      · refine ⟨k + 1, ck, dk, by simpa using hk, ?_, hdk, lt_trans hlt2 hdm, ?_, ?_⟩
        · rw [hstep, hr]; congr 1; omega
        · intro c' hc'
          rcases List.mem_cons.1 hc' with rfl | hmem
          · simp [hd, le_of_lt hlt2]
          · exact hall c' hmem
        · intro j cj hj hcj
          cases j with
          | zero =>
            simp at hcj; subst hcj
            rw [hd]; intro h; injection h with h; rw [h] at hlt2; exact lt_irrefl _ hlt2
          | succ j => exact hfirst j cj (by omega) (by simpa using hcj)
    · have hlt' : Flt.lt (constraint_distance sqrt mx my ps c) (Flt.fin m) = false := by
        simpa using hlt
      have hstep : find_nearest_loop sqrt mx my ps (c :: rest) i nearest (Flt.fin m)
          = find_nearest_loop sqrt mx my ps rest (i + 1) nearest (Flt.fin m) := by
        simp [find_nearest_loop, hlt']
      rcases ih (i + 1) nearest m with ⟨hr, hall⟩ | ⟨k, ck, dk, hk, hr, hdk, hlt2, hall, hfirst⟩
      · left
        refine ⟨by rw [hstep, hr], ?_⟩
        intro c' hc'
        rcases List.mem_cons.1 hc' with rfl | hmem
        · exact hlt'
        · exact hall c' hmem
      · right
        refine ⟨k + 1, ck, dk, by simpa using hk, ?_, hdk, hlt2, ?_, ?_⟩
        · rw [hstep, hr]; congr 1; omega
        · intro c' hc'
          rcases List.mem_cons.1 hc' with rfl | hmem
          · cases hc : constraint_distance sqrt mx my ps c' with
            | nan => simp
            | fin d =>
              rw [hc] at hlt'
              simp at hlt' ⊢
              exact le_trans (le_of_lt hlt2) hlt'
          · exact hall c' hmem
        · intro j cj hj hcj
          cases j with
          | zero =>
            simp at hcj; subst hcj
            intro h; rw [h] at hlt'; simp at hlt'
            exact absurd hlt2 (not_lt.2 hlt')
          | succ j => exact hfirst j cj (by omega) (by simpa using hcj)

/-- A link returned by `find_nearest_constraint` is an element of the vector. -/
theorem find_nearest_constraint_lt_length (sqrt : α → α) (mx my : Flt α)
    (ps : List (Particle α)) (cs : List (Constraint α)) (k : Nat)
    (h : find_nearest_constraint sqrt mx my ps cs = some k) : k < cs.length := by
  unfold find_nearest_constraint CLICK_TOLERANCE at h
  rcases find_nearest_loop_spec sqrt mx my ps cs 0 none 5 with
    ⟨hr, _⟩ | ⟨k', ck, dk, hk, hr, _⟩
  · rw [hr] at h; cases h
  · rw [hr] at h
    have : k = k' := by simpa using h.symm
    subst this
    exact (List.getElem?_eq_some_iff.1 hk).1

theorem sqrt_not_neg (x : ℝ) : ¬ (Real.sqrt x < 0) := not_lt.2 (Real.sqrt_nonneg x)

/-- The 2x2 mesh of `main` with `REST_DISTANCE = 30`, `WIDTH = 1080`, `HEIGHT = 640`. -/
theorem build_world_2x2 : build_world Real.sqrt 2 2 (30 : ℝ) 1080 640 =
    { particles := [Particle.new (Flt.fin 360) (Flt.fin 213) true,
        Particle.new (Flt.fin 390) (Flt.fin 213) true,
        Particle.new (Flt.fin 360) (Flt.fin 243) false,
        Particle.new (Flt.fin 390) (Flt.fin 243) false],
      constraints := [⟨0, 1, Flt.fin 30, true⟩, ⟨0, 2, Flt.fin 30, true⟩,
        ⟨1, 3, Flt.fin 30, true⟩, ⟨2, 3, Flt.fin 30, true⟩] } := by
  simp [build_world, build_particles, build_constraints, cell_constraints, grid_particle,
    List.range_succ, Constraint.new, deref, Flt.hypot, Particle.new]
  norm_num

/-- In the 2x2 mesh a click on `(375, 213)`, the midpoint of link 0, finds link 0. -/
theorem find_nearest_2x2_top_link :
    find_nearest_constraint Real.sqrt (Flt.fin 375) (Flt.fin 213)
        (build_world Real.sqrt 2 2 (30 : ℝ) 1080 640).particles
        (build_world Real.sqrt 2 2 (30 : ℝ) 1080 640).constraints = some 0 := by
  rw [build_world_2x2]
  simp [find_nearest_constraint, find_nearest_loop, constraint_distance, deref,
    Particle.new, point_to_segment_distance, CLICK_TOLERANCE]
  norm_num [sqrt_not_neg]

/-- The 2x2 mesh after that click: link 0 is torn, nothing else has changed. -/
theorem tear_cloth_2x2_top_link :
    tear_cloth Real.sqrt (Flt.fin 375) (Flt.fin 213)
        (build_world Real.sqrt 2 2 (30 : ℝ) 1080 640)
      = { particles := (build_world Real.sqrt 2 2 (30 : ℝ) 1080 640).particles,
          constraints := [⟨0, 1, Flt.fin 30, false⟩, ⟨0, 2, Flt.fin 30, true⟩,
            ⟨1, 3, Flt.fin 30, true⟩, ⟨2, 3, Flt.fin 30, true⟩] } := by
  simp only [tear_cloth, find_nearest_2x2_top_link]
  rw [build_world_2x2]
  simp [Constraint.deactivate]

/-- C1, evaluated.  (1) In the 2x2 mesh built by `main` a first click on `(375, 213)`
tears link 0; a second click on the same point gets link 0 again from
`find_nearest_constraint`, although it is now inactive.  (2) With a torn link 0 between
`(0,0)` and `(10,0)` and an active link 1 between `(0,2)` and `(10,2)`, a click at `(5,0)`
returns the torn link 0 although the active link 1 is within `CLICK_TOLERANCE`, and
`tear_cloth` then tears nothing. -/
theorem C1_find_nearest_returns_torn_link :
    (find_nearest_constraint Real.sqrt (Flt.fin 375) (Flt.fin 213)
        (tear_cloth Real.sqrt (Flt.fin 375) (Flt.fin 213)
          (build_world Real.sqrt 2 2 (30 : ℝ) 1080 640)).particles
        (tear_cloth Real.sqrt (Flt.fin 375) (Flt.fin 213)
          (build_world Real.sqrt 2 2 (30 : ℝ) 1080 640)).constraints = some 0 ∧
      ((tear_cloth Real.sqrt (Flt.fin 375) (Flt.fin 213)
          (build_world Real.sqrt 2 2 (30 : ℝ) 1080 640)).constraints[0]?).map
        Constraint.active = some false) ∧
    find_nearest_constraint Real.sqrt (Flt.fin 5) (Flt.fin 0)
        [Particle.new (Flt.fin 0) (Flt.fin 0) false, Particle.new (Flt.fin 10) (Flt.fin 0) false,
          Particle.new (Flt.fin 0) (Flt.fin 2) false, Particle.new (Flt.fin 10) (Flt.fin 2) false]
        [⟨0, 1, Flt.fin 10, false⟩, ⟨2, 3, Flt.fin 10, true⟩] = some 0 ∧
    Flt.lt (constraint_distance Real.sqrt (Flt.fin 5) (Flt.fin 0)
        [Particle.new (Flt.fin 0) (Flt.fin 0) false, Particle.new (Flt.fin 10) (Flt.fin 0) false,
          Particle.new (Flt.fin 0) (Flt.fin 2) false, Particle.new (Flt.fin 10) (Flt.fin 2) false]
        ⟨2, 3, Flt.fin 10, true⟩) CLICK_TOLERANCE = true ∧
    tear_cloth Real.sqrt (Flt.fin 5) (Flt.fin 0)
        ⟨[Particle.new (Flt.fin 0) (Flt.fin 0) false, Particle.new (Flt.fin 10) (Flt.fin 0) false,
          Particle.new (Flt.fin 0) (Flt.fin 2) false, Particle.new (Flt.fin 10) (Flt.fin 2) false],
        [⟨0, 1, Flt.fin 10, false⟩, ⟨2, 3, Flt.fin 10, true⟩]⟩ =
      ⟨[Particle.new (Flt.fin 0) (Flt.fin 0) false, Particle.new (Flt.fin 10) (Flt.fin 0) false,
          Particle.new (Flt.fin 0) (Flt.fin 2) false, Particle.new (Flt.fin 10) (Flt.fin 2) false],
        [⟨0, 1, Flt.fin 10, false⟩, ⟨2, 3, Flt.fin 10, true⟩]⟩ := by
  have h0 : find_nearest_constraint Real.sqrt (Flt.fin 5) (Flt.fin 0)
        [Particle.new (Flt.fin 0) (Flt.fin 0) false, Particle.new (Flt.fin 10) (Flt.fin 0) false,
          Particle.new (Flt.fin 0) (Flt.fin 2) false, Particle.new (Flt.fin 10) (Flt.fin 2) false]
        [⟨0, 1, Flt.fin 10, false⟩, ⟨2, 3, Flt.fin 10, true⟩] = some 0 := by
    simp [find_nearest_constraint, find_nearest_loop, constraint_distance, deref,
      Particle.new, point_to_segment_distance, CLICK_TOLERANCE]
    norm_num [sqrt_not_neg]
  refine ⟨?_, h0, ?_, ?_⟩
  · rw [tear_cloth_2x2_top_link, build_world_2x2]
    constructor
    · simp [find_nearest_constraint, find_nearest_loop, constraint_distance, deref,
        Particle.new, point_to_segment_distance, CLICK_TOLERANCE]
      norm_num [sqrt_not_neg]
    · simp
  · simp [constraint_distance, deref, Particle.new, point_to_segment_distance,
      CLICK_TOLERANCE]
    norm_num [Real.sqrt_lt' (by norm_num : (0 : ℝ) < 5)]
  · simp only [tear_cloth, h0]
    simp [Constraint.deactivate]

/-- C6: `tear_cloth` never touches the particles; when `find_nearest_constraint` finds
nothing, which is the case when no link is strictly within `CLICK_TOLERANCE`, the world
is unchanged; when it finds link `k`, that link is replaced by itself
with `active = false` (same endpoints, same rest length) and every other link is
unchanged.  In the 2x2 mesh with rest distance 30, a click on the midpoint `(375, 213)`
of the link joining grid points `(0,0)` and `(0,1)` deactivates exactly that link. -/
theorem C6_tear_cloth_frame (sqrt : α → α) (mx my : Flt α) (w : World α) :
    (tear_cloth sqrt mx my w).particles = w.particles ∧
    (find_nearest_constraint sqrt mx my w.particles w.constraints = none →
      tear_cloth sqrt mx my w = w) ∧
    ((∀ c ∈ w.constraints,
        Flt.lt (constraint_distance sqrt mx my w.particles c) CLICK_TOLERANCE = false) →
      tear_cloth sqrt mx my w = w) ∧
    (∀ k, find_nearest_constraint sqrt mx my w.particles w.constraints = some k →
      ∃ ck, w.constraints[k]? = some ck ∧
        (tear_cloth sqrt mx my w).constraints[k]? = some { ck with active := false } ∧
        ∀ j, j ≠ k → (tear_cloth sqrt mx my w).constraints[j]? = w.constraints[j]?) ∧
    tear_cloth Real.sqrt (Flt.fin 375) (Flt.fin 213) (build_world Real.sqrt 2 2 (30 : ℝ) 1080 640)
      = { particles := (build_world Real.sqrt 2 2 (30 : ℝ) 1080 640).particles,
          constraints := [⟨0, 1, Flt.fin 30, false⟩, ⟨0, 2, Flt.fin 30, true⟩,
            ⟨1, 3, Flt.fin 30, true⟩, ⟨2, 3, Flt.fin 30, true⟩] } := by
  refine ⟨?_, ?_, ?_, ?_, ?_⟩
  · unfold tear_cloth
    split <;> rfl
  · intro h
    simp [tear_cloth, h]
  · intro hall
    have hnone : find_nearest_constraint sqrt mx my w.particles w.constraints = none := by
      unfold find_nearest_constraint CLICK_TOLERANCE
      rcases find_nearest_loop_spec sqrt mx my w.particles w.constraints 0 none 5 with
        ⟨hr, _⟩ | ⟨k, ck, dk, hk, _, hdk, hlt, _, _⟩
      · exact hr
      · have := hall ck (List.getElem?_mem hk)
        rw [hdk] at this
        simp [CLICK_TOLERANCE] at this
        exact absurd hlt (not_lt.2 this)
    simp [tear_cloth, hnone]
  · intro k hk
    have hlen := find_nearest_constraint_lt_length sqrt mx my w.particles w.constraints k hk
    refine ⟨w.constraints[k], List.getElem?_eq_getElem hlen, ?_, ?_⟩
    · simp [tear_cloth, hk, List.getElem?_eq_getElem hlen, Constraint.deactivate]
    · intro j hj
      simp [tear_cloth, hk, List.getElem?_modify_ne _ _ (Ne.symm hj)]
  · exact tear_cloth_2x2_top_link

/-- C6 on the vertical link of the same mesh: a click on `(360, 228)`, the midpoint of
the link joining particles 0 and 2, finds link 1; it becomes inactive with its
endpoints and rest length kept, and every other link is as before. -/
theorem C6_tear_cloth_frame_witness :
    find_nearest_constraint Real.sqrt (Flt.fin 360) (Flt.fin 228)
        (build_world Real.sqrt 2 2 (30 : ℝ) 1080 640).particles
        (build_world Real.sqrt 2 2 (30 : ℝ) 1080 640).constraints = some 1 ∧
    ∃ ck, (build_world Real.sqrt 2 2 (30 : ℝ) 1080 640).constraints[1]? = some ck ∧
      (tear_cloth Real.sqrt (Flt.fin 360) (Flt.fin 228)
        (build_world Real.sqrt 2 2 (30 : ℝ) 1080 640)).constraints[1]?
          = some { ck with active := false } ∧
      ∀ j, j ≠ 1 →
        (tear_cloth Real.sqrt (Flt.fin 360) (Flt.fin 228)
          (build_world Real.sqrt 2 2 (30 : ℝ) 1080 640)).constraints[j]?
          = (build_world Real.sqrt 2 2 (30 : ℝ) 1080 640).constraints[j]? := by
  have h1 : find_nearest_constraint Real.sqrt (Flt.fin 360) (Flt.fin 228)
      (build_world Real.sqrt 2 2 (30 : ℝ) 1080 640).particles
      (build_world Real.sqrt 2 2 (30 : ℝ) 1080 640).constraints = some 1 := by
    rw [build_world_2x2]
    simp [find_nearest_constraint, find_nearest_loop, constraint_distance, deref,
      Particle.new, point_to_segment_distance, CLICK_TOLERANCE]
    norm_num [sqrt_not_neg]
  exact ⟨h1, (C6_tear_cloth_frame Real.sqrt (Flt.fin 360) (Flt.fin 228)
    (build_world Real.sqrt 2 2 (30 : ℝ) 1080 640)).2.2.2.1 1 h1⟩

/-- The squared distance from `p` to the point of parameter `r` on the line through
`a` and `b`, against the one at parameter `s`. -/
theorem sq_dist_param_sub (px py x1 y1 x2 y2 r s : ℝ)
    (hq : (x2 - x1) * (x2 - x1) + (y2 - y1) * (y2 - y1) ≠ 0) :
    ((px - (x1 + r * (x2 - x1))) ^ 2 + (py - (y1 + r * (y2 - y1))) ^ 2) -
      ((px - (x1 + s * (x2 - x1))) ^ 2 + (py - (y1 + s * (y2 - y1))) ^ 2) =
    (r - s) * ((x2 - x1) * (x2 - x1) + (y2 - y1) * (y2 - y1)) *
      (r + s - 2 * (((x2 - x1) * (px - x1) + (y2 - y1) * (py - y1)) /
        ((x2 - x1) * (x2 - x1) + (y2 - y1) * (y2 - y1)))) := by
  field_simp
  ring

/-- C7: for endpoints `a ≠ b`, `point_to_segment_distance p a b` is the Euclidean
distance from `p` to `a + clamp(t, 0, 1) * (b - a)` with `t = ((p-a).(b-a)) / |b-a|^2`;
no point `a + r * (b - a)`, `0 ≤ r ≤ 1`, of the segment is nearer to `p`.  For the
segment `(0,0)-(10,0)` the queries `(5,3)`, `(-2,0)` and `(12,4)` give `3`, `2` and
`sqrt 20`. -/
theorem C7_point_to_segment_distance_spec (px py x1 y1 x2 y2 : ℝ)
    (hab : x1 ≠ x2 ∨ y1 ≠ y2) :
    (point_to_segment_distance Real.sqrt (Flt.fin px) (Flt.fin py) (Flt.fin x1) (Flt.fin y1) (Flt.fin x2) (Flt.fin y2)
      = Flt.fin (Real.sqrt (
          (px - (x1 + max 0 (min (((px - x1) * (x2 - x1) + (py - y1) * (y2 - y1)) /
              ((x2 - x1) ^ 2 + (y2 - y1) ^ 2)) 1) * (x2 - x1))) ^ 2 +
          (py - (y1 + max 0 (min (((px - x1) * (x2 - x1) + (py - y1) * (y2 - y1)) /
              ((x2 - x1) ^ 2 + (y2 - y1) ^ 2)) 1) * (y2 - y1))) ^ 2))) ∧
    (∀ r : ℝ, 0 ≤ r → r ≤ 1 →
      ∃ d, point_to_segment_distance Real.sqrt (Flt.fin px) (Flt.fin py) (Flt.fin x1) (Flt.fin y1)
          (Flt.fin x2) (Flt.fin y2) = Flt.fin d ∧
        d ≤ Real.sqrt ((px - (x1 + r * (x2 - x1))) ^ 2 + (py - (y1 + r * (y2 - y1))) ^ 2)) ∧
    point_to_segment_distance Real.sqrt (Flt.fin 5) (Flt.fin 3) (Flt.fin 0) (Flt.fin 0) (Flt.fin 10) (Flt.fin 0)
      = Flt.fin (3 : ℝ) ∧
    point_to_segment_distance Real.sqrt (Flt.fin (-2)) (Flt.fin 0) (Flt.fin 0) (Flt.fin 0) (Flt.fin 10) (Flt.fin 0)
      = Flt.fin (2 : ℝ) ∧
    point_to_segment_distance Real.sqrt (Flt.fin 12) (Flt.fin 4) (Flt.fin 0) (Flt.fin 0) (Flt.fin 10) (Flt.fin 0)
      = Flt.fin (Real.sqrt 20) := by
  have hne : x2 - x1 ≠ 0 ∨ y2 - y1 ≠ 0 := by
    rcases hab with h | h
    · exact Or.inl fun e => h (by linarith)
    · exact Or.inr fun e => h (by linarith)
  have hq := sum_sq_ne_zero _ _ hne
  have hqpos : 0 < (x2 - x1) * (x2 - x1) + (y2 - y1) * (y2 - y1) :=
    lt_of_le_of_ne (add_nonneg (mul_self_nonneg _) (mul_self_nonneg _)) (Ne.symm hq)
  have ht : ((px - x1) * (x2 - x1) + (py - y1) * (y2 - y1)) / ((x2 - x1) ^ 2 + (y2 - y1) ^ 2)
      = ((x2 - x1) * (px - x1) + (y2 - y1) * (py - y1)) /
        ((x2 - x1) * (x2 - x1) + (y2 - y1) * (y2 - y1)) := by
    congr 1 <;> ring
  rw [ht]
  have hval := point_to_segment_distance_fin Real.sqrt px py x1 y1 x2 y2 hne
  have hsub := fun r s => sq_dist_param_sub px py x1 y1 x2 y2 r s hq
  set t := ((x2 - x1) * (px - x1) + (y2 - y1) * (py - y1)) /
        ((x2 - x1) * (x2 - x1) + (y2 - y1) * (y2 - y1)) with ht_def
  have hclamp : point_to_segment_distance Real.sqrt (Flt.fin px) (Flt.fin py) (Flt.fin x1) (Flt.fin y1)
      (Flt.fin x2) (Flt.fin y2) = Flt.fin (Real.sqrt ((px - (x1 + max 0 (min t 1) * (x2 - x1))) ^ 2 +
        (py - (y1 + max 0 (min t 1) * (y2 - y1))) ^ 2)) := by
    rw [hval]
    congr 2
    by_cases h0 : t < 0
    · rw [if_pos h0, min_eq_left (by linarith), max_eq_left (le_of_lt h0)]
      ring
    · rw [if_neg h0]
      by_cases h1 : 1 < t
      · rw [if_pos h1, min_eq_right (le_of_lt h1), max_eq_right (by norm_num)]
        ring
      · rw [if_neg h1, min_eq_left (not_lt.1 h1), max_eq_right (not_lt.1 h0)]
        ring
  have hmin : ∀ r : ℝ, 0 ≤ r → r ≤ 1 →
      (px - (x1 + max 0 (min t 1) * (x2 - x1))) ^ 2 +
        (py - (y1 + max 0 (min t 1) * (y2 - y1))) ^ 2 ≤
      (px - (x1 + r * (x2 - x1))) ^ 2 + (py - (y1 + r * (y2 - y1))) ^ 2 := by
    intro r hr0 hr1
    have key := hsub r (max 0 (min t 1))
    have hnn : 0 ≤ (r - max 0 (min t 1)) *
        ((x2 - x1) * (x2 - x1) + (y2 - y1) * (y2 - y1)) * (r + max 0 (min t 1) - 2 * t) := by
      by_cases h0 : t < 0
      · rw [min_eq_left (by linarith), max_eq_left (le_of_lt h0)]
        apply mul_nonneg (mul_nonneg (by linarith) (le_of_lt hqpos)) (by linarith)
      · by_cases h1 : 1 < t
        · rw [min_eq_right (le_of_lt h1), max_eq_right (by norm_num)]
          have e : (r - 1) * ((x2 - x1) * (x2 - x1) + (y2 - y1) * (y2 - y1)) * (r + 1 - 2 * t)
              = (1 - r) * ((x2 - x1) * (x2 - x1) + (y2 - y1) * (y2 - y1)) * (2 * t - r - 1) := by
            ring
          rw [e]
          apply mul_nonneg (mul_nonneg (by linarith) (le_of_lt hqpos)) (by linarith)
        · rw [min_eq_left (not_lt.1 h1), max_eq_right (not_lt.1 h0)]
          have e : (r - t) * ((x2 - x1) * (x2 - x1) + (y2 - y1) * (y2 - y1)) * (r + t - 2 * t)
              = ((x2 - x1) * (x2 - x1) + (y2 - y1) * (y2 - y1)) * ((r - t) * (r - t)) := by
            ring
          rw [e]
          exact mul_nonneg (le_of_lt hqpos) (mul_self_nonneg _)
    linarith
  refine ⟨hclamp, ?_, ?_, ?_, ?_⟩
  · intro r hr0 hr1
    exact ⟨_, hclamp, Real.sqrt_le_sqrt (hmin r hr0 hr1)⟩
  · rw [point_to_segment_distance_fin Real.sqrt 5 3 0 0 10 0 (Or.inl (by norm_num))]
    norm_num
    rw [show (9 : ℝ) = 3 ^ 2 by norm_num, Real.sqrt_sq (by norm_num)]
  · rw [point_to_segment_distance_fin Real.sqrt (-2) 0 0 0 10 0 (Or.inl (by norm_num))]
    norm_num
    rw [show (4 : ℝ) = 2 ^ 2 by norm_num, Real.sqrt_sq (by norm_num)]
  · rw [point_to_segment_distance_fin Real.sqrt 12 4 0 0 10 0 (Or.inl (by norm_num))]
    norm_num

/-- C7 on the segment `(0,0)-(10,0)` and the query `(5,3)`. -/
theorem C7_point_to_segment_distance_spec_witness :
    ((0 : ℝ) ≠ 10 ∨ (0 : ℝ) ≠ 0) ∧
    ∀ r : ℝ, 0 ≤ r → r ≤ 1 →
      ∃ d, point_to_segment_distance Real.sqrt (Flt.fin 5) (Flt.fin 3) (Flt.fin 0) (Flt.fin 0)
          (Flt.fin 10) (Flt.fin 0) = Flt.fin d ∧
        d ≤ Real.sqrt ((5 - (0 + r * (10 - 0))) ^ 2 + (3 - (0 + r * (0 - 0))) ^ 2) :=
  ⟨Or.inl (by norm_num),
    (C7_point_to_segment_distance_spec 5 3 0 0 10 0 (Or.inl (by norm_num))).2.1⟩

end UserProperties

/-! ### `Constraint::satisfy` on numbers -/

section SatisfyProperties

variable {α : Type} [LinearOrderedField α]

theorem deref_eq (ps : List (Particle α)) (i : Nat) (p : Particle α) (h : ps[i]? = some p) :
    deref ps i = p := by
  simp [deref, List.getD_eq_getElem?_getD, h]

/-- The current length of a link read off the positions of its endpoints. -/
theorem Constraint.current_length_eq (s : α → α) (c : Constraint α) (ps : List (Particle α))
    (ax ay bx bY : α) (hapos : (deref ps c.p1).position = ⟨Flt.fin ax, Flt.fin ay⟩)
    (hbpos : (deref ps c.p2).position = ⟨Flt.fin bx, Flt.fin bY⟩) :
    c.current_length s ps = Flt.fin (s ((bx - ax) * (bx - ax) + (bY - ay) * (bY - ay))) := by
  simp [Constraint.current_length, Constraint.delta, hapos, hbpos, Flt.hypot, sum_sq_not_neg]

/-- A numeric current length means numeric endpoint positions. -/
theorem Constraint.current_length_fin_inv (s : α → α) (c : Constraint α)
    (ps : List (Particle α)) (L : α) (h : c.current_length s ps = Flt.fin L) :
    ∃ ax ay bx bY, (deref ps c.p1).position = ⟨Flt.fin ax, Flt.fin ay⟩ ∧
      (deref ps c.p2).position = ⟨Flt.fin bx, Flt.fin bY⟩ ∧
      L = s ((bx - ax) * (bx - ax) + (bY - ay) * (bY - ay)) := by
  unfold Constraint.current_length Constraint.delta at h
  generalize (deref ps c.p1).position = a at h ⊢
  generalize (deref ps c.p2).position = b at h ⊢
  obtain ⟨ax, ay⟩ := a
  obtain ⟨bx, bY⟩ := b
  cases ax <;> cases ay <;> cases bx <;> cases bY <;>
    simp [Flt.hypot, sum_sq_not_neg] at h
  rename_i x1 y1 x2 y2
  exact ⟨x1, y1, x2, y2, rfl, rfl, h.symm⟩

/-- The two writes of `satisfy` on an active link with distinct endpoints. -/
theorem Constraint.satisfy_writes (s : α → α) (c : Constraint α) (ps : List (Particle α))
    (a b : Particle α) (ha : ps[c.p1]? = some a) (hb : ps[c.p2]? = some b)
    (hne : c.p1 ≠ c.p2) (hact : c.active = true) :
    (c.satisfy s ps)[c.p1]? = some (if a.is_pinned then a
      else { a with position := a.position + c.correction s ps }) ∧
    (c.satisfy s ps)[c.p2]? = some (if b.is_pinned then b
      else { b with position := b.position - c.correction s ps }) := by
  simp only [Constraint.satisfy, hact, Bool.not_true, Bool.false_eq_true, if_false]
  constructor
  · rw [List.getElem?_modify_ne _ _ (Ne.symm hne), List.getElem?_modify_eq, ha]
    cases h : a.is_pinned <;> simp [h]
  · rw [List.getElem?_modify_eq, List.getElem?_modify_ne _ _ hne, hb]
    cases h : b.is_pinned <;> simp [h]

theorem sqrt_scaled (dx dy m : ℝ) :
    Real.sqrt ((dx * m) * (dx * m) + (dy * m) * (dy * m)) =
      Real.sqrt (dx * dx + dy * dy) * |m| := by
  have e : (dx * m) * (dx * m) + (dy * m) * (dy * m) = (dx * dx + dy * dy) * m ^ 2 := by ring
  rw [e, Real.sqrt_mul (add_nonneg (mul_self_nonneg _) (mul_self_nonneg _)),
    Real.sqrt_sq_eq_abs]

/-- The correction of a link of non-zero numeric length `L` and numeric rest length `L0`:
the unit vector from `p1` to `p2` times half of `L - L0`. -/
theorem Constraint.correction_eq (c : Constraint ℝ) (ps : List (Particle ℝ)) (L L0 : ℝ)
    (hlen : c.current_length Real.sqrt ps = Flt.fin L) (hL : L ≠ 0)
    (hL0 : c.initial_length = Flt.fin L0) :
    ∃ ax ay bx bY, (deref ps c.p1).position = ⟨Flt.fin ax, Flt.fin ay⟩ ∧
      (deref ps c.p2).position = ⟨Flt.fin bx, Flt.fin bY⟩ ∧
      L = Real.sqrt ((bx - ax) * (bx - ax) + (bY - ay) * (bY - ay)) ∧
      c.correction Real.sqrt ps =
        ⟨Flt.fin ((bx - ax) / L * ((L - L0) / 2)), Flt.fin ((bY - ay) / L * ((L - L0) / 2))⟩ := by
  obtain ⟨ax, ay, bx, bY, hapos, hbpos, hLeq⟩ :=
    Constraint.current_length_fin_inv Real.sqrt c ps L hlen
  refine ⟨ax, ay, bx, bY, hapos, hbpos, hLeq, ?_⟩
  simp only [Constraint.correction, Constraint.difference, hlen, hL0, Constraint.delta, hapos,
    hbpos]
  simp only [Vec2.scale, Vec2.sub_x, Vec2.sub_y, Flt.fin_sub_fin, Flt.fin_div_fin, if_neg hL,
    Flt.fin_mul_fin]
  congr 2 <;> (field_simp; norm_num; ring)

/-- A link of non-zero numeric length joins two different particles. -/
theorem Constraint.endpoints_ne (c : Constraint ℝ) (ps : List (Particle ℝ)) (L : ℝ)
    (hlen : c.current_length Real.sqrt ps = Flt.fin L) (hL : L ≠ 0) : c.p1 ≠ c.p2 := by
  intro e
  obtain ⟨ax, ay, bx, bY, hapos, hbpos, hLeq⟩ :=
    Constraint.current_length_fin_inv Real.sqrt c ps L hlen
  rw [e] at hapos
  have hab := hapos.symm.trans hbpos
  have hx : ax = bx := by simpa using congrArg Vec2.x hab
  have hy : ay = bY := by simpa using congrArg Vec2.y hab
  rw [hx, hy] at hLeq
  simp at hLeq
  exact hL hLeq

/-- The length of an active link after `satisfy`, for a positive numeric length `L`
before: with `k` the number of unpinned endpoints, it is `L * |1 - k * ((L - L0) / (2 L))|`. -/
theorem Constraint.satisfy_current_length (c : Constraint ℝ) (ps : List (Particle ℝ))
    (a b : Particle ℝ) (L L0 : ℝ) (ha : ps[c.p1]? = some a) (hb : ps[c.p2]? = some b)
    (hact : c.active = true) (hlen : c.current_length Real.sqrt ps = Flt.fin L) (hL : 0 < L)
    (hL0 : c.initial_length = Flt.fin L0) :
    c.current_length Real.sqrt (c.satisfy Real.sqrt ps) =
      Flt.fin (L * |1 - ((if a.is_pinned then 0 else 1) + (if b.is_pinned then 0 else 1)) *
        ((L - L0) / (2 * L))|) := by
  obtain ⟨ax, ay, bx, bY, hapos, hbpos, hLeq, hcorr⟩ :=
    Constraint.correction_eq c ps L L0 hlen (ne_of_gt hL) hL0
  rw [deref_eq ps _ _ ha] at hapos
  rw [deref_eq ps _ _ hb] at hbpos
  have hne := Constraint.endpoints_ne c ps L hlen (ne_of_gt hL)
  obtain ⟨hw1, hw2⟩ := Constraint.satisfy_writes Real.sqrt c ps a b ha hb hne hact
  have hL' : L ≠ 0 := ne_of_gt hL
  rw [Constraint.current_length_eq Real.sqrt c (c.satisfy Real.sqrt ps)
    (ax + (if a.is_pinned then 0 else 1) * ((bx - ax) / L * ((L - L0) / 2)))
    (ay + (if a.is_pinned then 0 else 1) * ((bY - ay) / L * ((L - L0) / 2)))
    (bx - (if b.is_pinned then 0 else 1) * ((bx - ax) / L * ((L - L0) / 2)))
    (bY - (if b.is_pinned then 0 else 1) * ((bY - ay) / L * ((L - L0) / 2)))]
  · have ex : ∀ (p q ka kb : ℝ), (q - kb * ((q - p) / L * ((L - L0) / 2))) -
        (p + ka * ((q - p) / L * ((L - L0) / 2))) =
        (q - p) * (1 - (ka + kb) * ((L - L0) / (2 * L))) := by
      intro p q ka kb
      field_simp
      ring
    rw [ex, ex, sqrt_scaled, ← hLeq]
  · rw [deref_eq _ _ _ hw1]
    cases h : a.is_pinned <;> simp [h, hapos, hcorr]
    ext <;> simp
  · rw [deref_eq _ _ _ hw2]
    cases h : b.is_pinned <;> simp [h, hbpos, hcorr]
    ext <;> simp

/-- The rest length recorded by the constructor, when it is a number, is not negative. -/
theorem Constraint.new_initial_length_nonneg (ps : List (Particle ℝ)) (p1 p2 : Nat) (L0 : ℝ)
    (h : (Constraint.new Real.sqrt ps p1 p2).initial_length = Flt.fin L0) : 0 ≤ L0 := by
  obtain ⟨ax, ay, bx, bY, _, _, hL⟩ := Constraint.current_length_fin_inv Real.sqrt
    (Constraint.new Real.sqrt ps p1 p2) ps L0 h
  rw [hL]
  exact Real.sqrt_nonneg _

theorem length_factor (L L0 k : ℝ) (hL : 0 < L) :
    L * |1 - k * ((L - L0) / (2 * L))| = |L - k * ((L - L0) / 2)| := by
  have e : L - k * ((L - L0) / 2) = L * (1 - k * ((L - L0) / (2 * L))) := by
    field_simp
    ring
  rw [e, abs_mul, abs_of_pos hL]

/-- In exact real arithmetic: on an active link with both endpoints unpinned, positive
length `L` and rest length `L0 ≥ 0`, one `satisfy()` leaves the endpoints exactly `L0`
apart; `p1` moves by `+u * (L - L0) / 2` and `p2` by `-u * (L - L0) / 2`, `u` the unit
vector from `p1` to `p2`; and when `L0 > 0`, the length is `L0` after any `n ≥ 1` calls.
For `L0 = 0` the second call meets a zero length. -/
theorem Constraint.satisfy_free_restores_rest_length (c : Constraint ℝ) (ps : List (Particle ℝ))
    (a b : Particle ℝ) (L L0 : ℝ) (ha : ps[c.p1]? = some a) (hb : ps[c.p2]? = some b)
    (hact : c.active = true) (hpa : a.is_pinned = false) (hpb : b.is_pinned = false)
    (hlen : c.current_length Real.sqrt ps = Flt.fin L) (hL : 0 < L)
    (hL0 : c.initial_length = Flt.fin L0) (h0 : 0 ≤ L0) :
    c.current_length Real.sqrt (c.satisfy Real.sqrt ps) = Flt.fin L0 ∧
    (∃ dx dy, c.delta ps = ⟨Flt.fin dx, Flt.fin dy⟩ ∧ L = Real.sqrt (dx * dx + dy * dy) ∧
      (c.satisfy Real.sqrt ps)[c.p1]? = some { a with position := a.position +
        ⟨Flt.fin (dx / L * ((L - L0) / 2)), Flt.fin (dy / L * ((L - L0) / 2))⟩ } ∧
      (c.satisfy Real.sqrt ps)[c.p2]? = some { b with position := b.position -
        ⟨Flt.fin (dx / L * ((L - L0) / 2)), Flt.fin (dy / L * ((L - L0) / 2))⟩ }) ∧
    (0 < L0 → ∀ n, 1 ≤ n →
      c.current_length Real.sqrt ((c.satisfy Real.sqrt)^[n] ps) = Flt.fin L0) := by
  have hstep : ∀ (qs : List (Particle ℝ)) (a' b' : Particle ℝ) (L' : ℝ),
      qs[c.p1]? = some a' → qs[c.p2]? = some b' → a'.is_pinned = false →
      b'.is_pinned = false → c.current_length Real.sqrt qs = Flt.fin L' → 0 < L' →
      c.current_length Real.sqrt (c.satisfy Real.sqrt qs) = Flt.fin L0 := by
    intro qs a' b' L' ha' hb' hpa' hpb' hlen' hL'
    rw [Constraint.satisfy_current_length c qs a' b' L' L0 ha' hb' hact hlen' hL' hL0]
    congr 1
    simp only [hpa', hpb', Bool.false_eq_true, if_false]
    have e : 1 - (1 + 1) * ((L' - L0) / (2 * L')) = L0 / L' := by
      field_simp
      ring
    rw [e, abs_of_nonneg (div_nonneg h0 (le_of_lt hL'))]
    field_simp
  have hne := Constraint.endpoints_ne c ps L hlen (ne_of_gt hL)
  have hunp : ∀ (qs : List (Particle ℝ)),
      (∃ a' b', qs[c.p1]? = some a' ∧ qs[c.p2]? = some b' ∧ a'.is_pinned = false ∧
        b'.is_pinned = false) →
      ∃ a' b', (c.satisfy Real.sqrt qs)[c.p1]? = some a' ∧
        (c.satisfy Real.sqrt qs)[c.p2]? = some b' ∧ a'.is_pinned = false ∧
        b'.is_pinned = false := by
    rintro qs ⟨a', b', ha', hb', hpa', hpb'⟩
    obtain ⟨hw1, hw2⟩ := Constraint.satisfy_writes Real.sqrt c qs a' b' ha' hb' hne hact
    refine ⟨_, _, hw1, hw2, ?_, ?_⟩ <;> simp [hpa', hpb']
  refine ⟨hstep ps a b L ha hb hpa hpb hlen hL, ?_, ?_⟩
  · obtain ⟨ax, ay, bx, bY, hapos, hbpos, hLeq, hcorr⟩ :=
      Constraint.correction_eq c ps L L0 hlen (ne_of_gt hL) hL0
    obtain ⟨hw1, hw2⟩ := Constraint.satisfy_writes Real.sqrt c ps a b ha hb hne hact
    refine ⟨bx - ax, bY - ay, ?_, hLeq, ?_, ?_⟩
    · rw [Constraint.delta, hapos, hbpos]; rfl
    · rw [hw1, hcorr]; simp [hpa]
    · rw [hw2, hcorr]; simp [hpb]
  · intro hpos n hn
    have hinv : ∀ m : Nat,
        (∃ a' b', ((c.satisfy Real.sqrt)^[m + 1] ps)[c.p1]? = some a' ∧
          ((c.satisfy Real.sqrt)^[m + 1] ps)[c.p2]? = some b' ∧ a'.is_pinned = false ∧
          b'.is_pinned = false) ∧
        c.current_length Real.sqrt ((c.satisfy Real.sqrt)^[m + 1] ps) = Flt.fin L0 := by
      intro m
      induction m with
      | zero =>
        exact ⟨hunp ps ⟨a, b, ha, hb, hpa, hpb⟩, hstep ps a b L ha hb hpa hpb hlen hL⟩
      | succ m ih =>
        rw [Function.iterate_succ_apply']
        obtain ⟨⟨a', b', ha', hb', hpa', hpb'⟩, hlen'⟩ := ih
        exact ⟨hunp _ ⟨a', b', ha', hb', hpa', hpb'⟩,
          hstep _ a' b' L0 ha' hb' hpa' hpb' hlen' hpos⟩
    obtain ⟨m, rfl⟩ : ∃ m, n = m + 1 := ⟨n - 1, by omega⟩
    exact (hinv m).2

/-- C2, evaluated: the free particles `(0,0)` and `(1,0)` are joined by an active link of
rest length 0 and current length 1.  The first `satisfy()` brings both to `(1/2, 0)`,
length 0, the rest length; the second call has no guard for that zero length, divides
`0` by `0` and leaves invalid positions, so the length is not the rest length after two
calls. -/
theorem C2_repeated_satisfy_zero_rest_length :
    Constraint.current_length Real.sqrt ⟨0, 1, Flt.fin 0, true⟩
        [Particle.new (Flt.fin 0) (Flt.fin 0) false, Particle.new (Flt.fin 1) (Flt.fin 0) false]
      = Flt.fin 1 ∧
    Constraint.current_length Real.sqrt ⟨0, 1, Flt.fin 0, true⟩
        ((Constraint.satisfy Real.sqrt ⟨0, 1, Flt.fin 0, true⟩)^[1]
          [Particle.new (Flt.fin 0) (Flt.fin 0) false,
            Particle.new (Flt.fin 1) (Flt.fin 0) false])
      = Flt.fin 0 ∧
    Constraint.current_length Real.sqrt ⟨0, 1, Flt.fin 0, true⟩
        ((Constraint.satisfy Real.sqrt ⟨0, 1, Flt.fin 0, true⟩)^[2]
          [Particle.new (Flt.fin 0) (Flt.fin 0) false,
            Particle.new (Flt.fin 1) (Flt.fin 0) false])
      ≠ Flt.fin 0 := by
  have h1 : Constraint.satisfy Real.sqrt ⟨0, 1, Flt.fin 0, true⟩
      [Particle.new (Flt.fin 0) (Flt.fin 0) false, Particle.new (Flt.fin 1) (Flt.fin 0) false]
      = [⟨⟨Flt.fin (1 / 2), Flt.fin 0⟩, ⟨Flt.fin 0, Flt.fin 0⟩, ⟨Flt.fin 0, Flt.fin 0⟩, false⟩,
        ⟨⟨Flt.fin (1 / 2), Flt.fin 0⟩, ⟨Flt.fin 1, Flt.fin 0⟩, ⟨Flt.fin 0, Flt.fin 0⟩,
          false⟩] := by
    simp [Constraint.satisfy, Constraint.correction, Constraint.difference,
      Constraint.current_length, Constraint.delta, deref, Particle.new, Flt.hypot, Vec2.scale]
    constructor <;> ext <;> simp <;> norm_num
  have h2 : Constraint.satisfy Real.sqrt ⟨0, 1, Flt.fin 0, true⟩
      [⟨⟨Flt.fin (1 / 2), Flt.fin 0⟩, ⟨Flt.fin 0, Flt.fin 0⟩, ⟨Flt.fin 0, Flt.fin 0⟩, false⟩,
        ⟨⟨Flt.fin (1 / 2), Flt.fin 0⟩, ⟨Flt.fin 1, Flt.fin 0⟩, ⟨Flt.fin 0, Flt.fin 0⟩, false⟩]
      = [⟨⟨Flt.nan, Flt.nan⟩, ⟨Flt.fin 0, Flt.fin 0⟩, ⟨Flt.fin 0, Flt.fin 0⟩, false⟩,
        ⟨⟨Flt.nan, Flt.nan⟩, ⟨Flt.fin 1, Flt.fin 0⟩, ⟨Flt.fin 0, Flt.fin 0⟩, false⟩] := by
    simp [Constraint.satisfy, Constraint.correction, Constraint.difference,
      Constraint.current_length, Constraint.delta, deref, Flt.hypot, Vec2.scale]
    constructor <;> ext <;> simp
  refine ⟨?_, ?_, ?_⟩
  · simp [Constraint.current_length, Constraint.delta, deref, Particle.new, Flt.hypot]
  · rw [Function.iterate_one, h1]
    simp [Constraint.current_length, Constraint.delta, deref, Flt.hypot]
  · rw [Function.iterate_succ_apply, Function.iterate_one, h1, h2]
    simp [Constraint.current_length, Constraint.delta, deref, Flt.hypot]

/-- C3 as stated fails: with `p1` pinned at `(0,0)`, `p2` free at `(10,0)` and rest
length 6, one `satisfy()` moves `p2` to `(8,0)`: the distance is 8, not 6. -/
theorem C3_counterexample_half_correction :
    Constraint.satisfy Real.sqrt ⟨0, 1, Flt.fin 6, true⟩
        [Particle.new (Flt.fin 0) (Flt.fin 0) true, Particle.new (Flt.fin 10) (Flt.fin 0) false]
      = [Particle.new (Flt.fin 0) (Flt.fin 0) true,
          ⟨⟨Flt.fin 8, Flt.fin 0⟩, ⟨Flt.fin 10, Flt.fin 0⟩, ⟨Flt.fin 0, Flt.fin 0⟩, false⟩] ∧
    Constraint.current_length Real.sqrt ⟨0, 1, Flt.fin 6, true⟩
        (Constraint.satisfy Real.sqrt ⟨0, 1, Flt.fin 6, true⟩
          [Particle.new (Flt.fin 0) (Flt.fin 0) true,
            Particle.new (Flt.fin 10) (Flt.fin 0) false])
      = Flt.fin 8 ∧
    (Flt.fin 8 : Flt ℝ) ≠ Flt.fin 6 := by
  have h1 : Constraint.satisfy Real.sqrt ⟨0, 1, Flt.fin 6, true⟩
        [Particle.new (Flt.fin 0) (Flt.fin 0) true, Particle.new (Flt.fin 10) (Flt.fin 0) false]
      = [Particle.new (Flt.fin 0) (Flt.fin 0) true,
          ⟨⟨Flt.fin 8, Flt.fin 0⟩, ⟨Flt.fin 10, Flt.fin 0⟩, ⟨Flt.fin 0, Flt.fin 0⟩, false⟩] := by
    simp [Constraint.satisfy, Constraint.correction, Constraint.difference,
      Constraint.current_length, Constraint.delta, deref, Particle.new, Flt.hypot, Vec2.scale]
    ext <;> simp <;> norm_num
  refine ⟨h1, ?_, by simp⟩
  rw [h1]
  simp [Constraint.current_length, Constraint.delta, deref, Particle.new, Flt.hypot]

/-- C3 (amended), in exact real arithmetic: on an active link with exactly one endpoint
pinned, positive numeric length `L` and rest length `L0 ≥ 0`, `satisfy()` leaves the
pinned endpoint as it is and moves the unpinned one by `u * (L - L0) / 2` towards the
rest length (`u` the unit vector from `p1` to `p2`): the same half correction as with
two free endpoints.  The distance after the call is `(L + L0) / 2`, half-way between `L`
and the rest length. -/
theorem C3_satisfy_one_pinned_half_correction (c : Constraint ℝ) (ps : List (Particle ℝ))
    (a b : Particle ℝ) (L L0 : ℝ) (ha : ps[c.p1]? = some a) (hb : ps[c.p2]? = some b)
    (hact : c.active = true) (hpin : a.is_pinned = !b.is_pinned)
    (hlen : c.current_length Real.sqrt ps = Flt.fin L) (hL : 0 < L)
    (hL0 : c.initial_length = Flt.fin L0) (h0 : 0 ≤ L0) :
    (a.is_pinned = true → (c.satisfy Real.sqrt ps)[c.p1]? = some a) ∧
    (b.is_pinned = true → (c.satisfy Real.sqrt ps)[c.p2]? = some b) ∧
    (∃ dx dy, c.delta ps = ⟨Flt.fin dx, Flt.fin dy⟩ ∧ L = Real.sqrt (dx * dx + dy * dy) ∧
      (a.is_pinned = false →
        (c.satisfy Real.sqrt ps)[c.p1]? = some { a with position := a.position +
          ⟨Flt.fin (dx / L * ((L - L0) / 2)), Flt.fin (dy / L * ((L - L0) / 2))⟩ }) ∧
      (b.is_pinned = false →
        (c.satisfy Real.sqrt ps)[c.p2]? = some { b with position := b.position -
          ⟨Flt.fin (dx / L * ((L - L0) / 2)), Flt.fin (dy / L * ((L - L0) / 2))⟩ })) ∧
    c.current_length Real.sqrt (c.satisfy Real.sqrt ps) = Flt.fin ((L + L0) / 2) := by
  have hne := Constraint.endpoints_ne c ps L hlen (ne_of_gt hL)
  obtain ⟨hw1, hw2⟩ := Constraint.satisfy_writes Real.sqrt c ps a b ha hb hne hact
  obtain ⟨ax, ay, bx, bY, hapos, hbpos, hLeq, hcorr⟩ :=
    Constraint.correction_eq c ps L L0 hlen (ne_of_gt hL) hL0
  refine ⟨fun h => by rw [hw1]; simp [h], fun h => by rw [hw2]; simp [h], ?_, ?_⟩
  · refine ⟨bx - ax, bY - ay, ?_, hLeq, fun h => ?_, fun h => ?_⟩
    · rw [Constraint.delta, hapos, hbpos]; rfl
    · rw [hw1, hcorr]; simp [h]
    · rw [hw2, hcorr]; simp [h]
  · rw [Constraint.satisfy_current_length c ps a b L L0 ha hb hact hlen hL hL0,
      length_factor L L0 _ hL]
    congr 1
    have hk : ((if a.is_pinned = true then (0 : ℝ) else 1) +
        (if b.is_pinned = true then (0 : ℝ) else 1)) = 1 := by
      cases hB : b.is_pinned <;> simp [hpin, hB]
    have e : L - 1 * ((L - L0) / 2) = (L + L0) / 2 := by ring
    rw [hk, e, abs_of_nonneg (show (0 : ℝ) ≤ (L + L0) / 2 by linarith)]

/-- C3 (amended) with `p1` pinned at `(0,0)`, `p2` free at `(10,0)` and rest length 6:
the distance after one call is `(10 + 6) / 2`. -/
theorem C3_satisfy_one_pinned_half_correction_witness :
    ([Particle.new (Flt.fin 0) (Flt.fin 0) true,
        Particle.new (Flt.fin 10) (Flt.fin 0) false] : List (Particle ℝ))[0]?
      = some (Particle.new (Flt.fin 0) (Flt.fin 0) true) ∧
    (Constraint.satisfy Real.sqrt ⟨0, 1, Flt.fin 6, true⟩
        [Particle.new (Flt.fin 0) (Flt.fin 0) true,
          Particle.new (Flt.fin 10) (Flt.fin 0) false])[0]?
      = some (Particle.new (Flt.fin 0) (Flt.fin 0) true) ∧
    Constraint.current_length Real.sqrt ⟨0, 1, Flt.fin 6, true⟩
        (Constraint.satisfy Real.sqrt ⟨0, 1, Flt.fin 6, true⟩
          [Particle.new (Flt.fin 0) (Flt.fin 0) true,
            Particle.new (Flt.fin 10) (Flt.fin 0) false])
      = Flt.fin ((10 + 6) / 2) := by
  have h := C3_satisfy_one_pinned_half_correction ⟨0, 1, Flt.fin 6, true⟩
    [Particle.new (Flt.fin 0) (Flt.fin 0) true, Particle.new (Flt.fin 10) (Flt.fin 0) false]
    (Particle.new (Flt.fin 0) (Flt.fin 0) true) (Particle.new (Flt.fin 10) (Flt.fin 0) false)
    10 6 rfl rfl rfl rfl
    (by simp [Constraint.current_length, Constraint.delta, deref, Particle.new, Flt.hypot])
    (by norm_num) rfl (by norm_num)
  exact ⟨rfl, h.1 rfl, h.2.2.2⟩

/-- In exact real arithmetic: for a link with rest length `L0 ≥ 0` and positive length
`L`, whatever its `active` flag and the pinned flags of its endpoints, the length `L'`
after one `satisfy()` has `|L' - L0| ≤ |L - L0|`.  (The binary32 quotient
`(L - L0) / L` overflows for a tiny `L`; that is outside this statement.) -/
theorem Constraint.satisfy_error_nonincreasing_exact (c : Constraint ℝ) (ps : List (Particle ℝ))
    (a b : Particle ℝ) (L L0 : ℝ) (ha : ps[c.p1]? = some a) (hb : ps[c.p2]? = some b)
    (hlen : c.current_length Real.sqrt ps = Flt.fin L) (hL : 0 < L)
    (hL0 : c.initial_length = Flt.fin L0) (h0 : 0 ≤ L0) :
    ∃ L', c.current_length Real.sqrt (c.satisfy Real.sqrt ps) = Flt.fin L' ∧
      |L' - L0| ≤ |L - L0| := by
  cases hact : c.active with
  | false =>
    exact ⟨L, by rw [Constraint.satisfy_inactive_eq Real.sqrt c ps hact, hlen], le_refl _⟩
  | true =>
    refine ⟨_, Constraint.satisfy_current_length c ps a b L L0 ha hb hact hlen hL hL0, ?_⟩
    rw [length_factor L L0 _ hL]
    cases hA : a.is_pinned <;> cases hB : b.is_pinned <;>
      simp only [Bool.false_eq_true, if_false, if_true]
    · have e : L - (1 + 1) * ((L - L0) / 2) = L0 := by ring
      rw [e, abs_of_nonneg h0, sub_self, abs_zero]
      exact abs_nonneg _
    · have e : L - (1 + 0) * ((L - L0) / 2) = (L + L0) / 2 := by ring
      rw [e, abs_of_nonneg (show (0 : ℝ) ≤ (L + L0) / 2 by linarith)]
      have e2 : (L + L0) / 2 - L0 = (L - L0) / 2 := by ring
      rw [e2, abs_div, abs_two]
      linarith [abs_nonneg (L - L0)]
    · have e : L - (0 + 1) * ((L - L0) / 2) = (L + L0) / 2 := by ring
      rw [e, abs_of_nonneg (show (0 : ℝ) ≤ (L + L0) / 2 by linarith)]
      have e2 : (L + L0) / 2 - L0 = (L - L0) / 2 := by ring
      rw [e2, abs_div, abs_two]
      linarith [abs_nonneg (L - L0)]
    · have e : L - (0 + 0) * ((L - L0) / 2) = L := by ring
      rw [e, abs_of_pos hL]

end SatisfyProperties

/-! ### `Particle::constrain_to_bounds` -/

section ClampProperties

variable {α : Type} [LinearOrderedField α]

/-- One axis of `constrain_to_bounds` on numbers: `min (max x 0) w`. -/
theorem clamp_axis_fin (x w : α) :
    (if Flt.gt (if Flt.lt (Flt.fin x) (Flt.fin 0) then Flt.fin 0 else Flt.fin x) (Flt.fin w)
      then Flt.fin w
      else (if Flt.lt (Flt.fin x) (Flt.fin 0) then Flt.fin 0 else Flt.fin x)) =
    Flt.fin (min (max x 0) w) := by
  by_cases h0 : x < 0
  · have hm : max x 0 = 0 := max_eq_right (le_of_lt h0)
    by_cases hw : w < 0
    · simp [h0, hw, hm, min_eq_right (le_of_lt hw)]
    · simp [h0, hw, hm, min_eq_left (not_lt.1 hw)]
  · have hm : max x 0 = x := max_eq_left (not_lt.1 h0)
    by_cases hw : w < x
    · simp [h0, hw, hm, min_eq_right (le_of_lt hw)]
    · simp [h0, hw, hm, min_eq_left (not_lt.1 hw)]

/-- C13: for a particle at a numeric position `(x, y)`, pinned or not, and bounds
`w ≥ 0`, `h ≥ 0`, `constrain_to_bounds` changes only `position`, to
`(min (max x 0) w, min (max y 0) h)`; that point lies in `[0,w] x [0,h]`; and a particle
already inside the bounds is returned unchanged. -/
theorem C13_constrain_to_bounds_spec (p : Particle α) (x y w h : α)
    (hp : p.position = ⟨Flt.fin x, Flt.fin y⟩) (hw : 0 ≤ w) (hh : 0 ≤ h) :
    p.constrain_to_bounds (Flt.fin w) (Flt.fin h) =
      { position := ⟨Flt.fin (min (max x 0) w), Flt.fin (min (max y 0) h)⟩,
        previous_position := p.previous_position, acceleration := p.acceleration,
        is_pinned := p.is_pinned } ∧
    (0 ≤ min (max x 0) w ∧ min (max x 0) w ≤ w ∧ 0 ≤ min (max y 0) h ∧ min (max y 0) h ≤ h) ∧
    (0 ≤ x → x ≤ w → 0 ≤ y → y ≤ h → p.constrain_to_bounds (Flt.fin w) (Flt.fin h) = p) := by
  have hval : p.constrain_to_bounds (Flt.fin w) (Flt.fin h) =
      { position := ⟨Flt.fin (min (max x 0) w), Flt.fin (min (max y 0) h)⟩,
        previous_position := p.previous_position, acceleration := p.acceleration,
        is_pinned := p.is_pinned } := by
    simp only [Particle.constrain_to_bounds, hp, clamp_axis_fin]
  refine ⟨hval, ⟨le_min (le_max_right _ _) hw, min_le_right _ _,
    le_min (le_max_right _ _) hh, min_le_right _ _⟩, ?_⟩
  intro hx0 hxw hy0 hyh
  rw [hval, max_eq_left hx0, max_eq_left hy0, min_eq_left hxw, min_eq_left hyh, ← hp]

/-- C13 on a pinned particle at `(-5, 700)` and the bounds of `main`: it is moved to
`(0, 640)`. -/
theorem C13_constrain_to_bounds_spec_witness :
    Particle.constrain_to_bounds (Particle.new (Flt.fin (-5 : ℚ)) (Flt.fin 700) true)
        (Flt.fin 1080) (Flt.fin 640) =
      { position := ⟨Flt.fin (min (max (-5) 0) 1080), Flt.fin (min (max 700 0) 640)⟩,
        previous_position := ⟨Flt.fin (-5), Flt.fin 700⟩,
        acceleration := ⟨Flt.fin 0, Flt.fin 0⟩, is_pinned := true } ∧
    min (max (-5 : ℚ) 0) 1080 = 0 ∧ min (max (700 : ℚ) 0) 640 = 640 :=
  ⟨(C13_constrain_to_bounds_spec (Particle.new (Flt.fin (-5 : ℚ)) (Flt.fin 700) true)
    (-5) 700 1080 640 rfl (by norm_num) (by norm_num)).1, by norm_num, by norm_num⟩

/-- One axis of `constrain_to_bounds` applied twice is the same as applied once, for
every coordinate and bound, invalid values included. -/
theorem clamp_axis_idem (x w : Flt α) :
    (if Flt.gt
        (if Flt.lt
            (if Flt.gt (if Flt.lt x (Flt.fin 0) then Flt.fin 0 else x) w then w
              else (if Flt.lt x (Flt.fin 0) then Flt.fin 0 else x)) (Flt.fin 0)
          then Flt.fin 0
          else (if Flt.gt (if Flt.lt x (Flt.fin 0) then Flt.fin 0 else x) w then w
              else (if Flt.lt x (Flt.fin 0) then Flt.fin 0 else x))) w
      then w
      else (if Flt.lt
            (if Flt.gt (if Flt.lt x (Flt.fin 0) then Flt.fin 0 else x) w then w
              else (if Flt.lt x (Flt.fin 0) then Flt.fin 0 else x)) (Flt.fin 0)
          then Flt.fin 0
          else (if Flt.gt (if Flt.lt x (Flt.fin 0) then Flt.fin 0 else x) w then w
              else (if Flt.lt x (Flt.fin 0) then Flt.fin 0 else x)))) =
    (if Flt.gt (if Flt.lt x (Flt.fin 0) then Flt.fin 0 else x) w then w
      else (if Flt.lt x (Flt.fin 0) then Flt.fin 0 else x)) := by
  cases x with
  | nan => cases w <;> simp
  | fin x =>
    cases w with
    | nan => by_cases h0 : x < 0 <;> simp [h0]
    | fin w =>
      rw [clamp_axis_fin x w, clamp_axis_fin (min (max x 0) w) w]
      congr 1
      by_cases hw : 0 ≤ w
      · have h1 : 0 ≤ min (max x 0) w := le_min (le_max_right _ _) hw
        rw [max_eq_left h1, min_eq_left (min_le_right _ _)]
      · have hw' : w < 0 := not_le.1 hw
        have h1 : min (max x 0) w = w :=
          min_eq_right (le_trans (le_of_lt hw') (le_max_right _ _))
        rw [h1, max_eq_right (le_of_lt hw'), min_eq_right (le_of_lt hw')]

/-- C14: `constrain_to_bounds` is idempotent, for every particle state and all bounds
(negative and invalid ones included). -/
theorem C14_constrain_to_bounds_idempotent (p : Particle α) (width height : Flt α) :
    (p.constrain_to_bounds width height).constrain_to_bounds width height =
      p.constrain_to_bounds width height := by
  simp only [Particle.constrain_to_bounds, clamp_axis_idem]

end ClampProperties

/-! ### The simulation step -/

section StepProperties

variable {α : Type} [LinearOrderedField α]

/-- A sweep over all links is a sweep over the active links: `satisfy()` returns at once
on the others. -/
theorem satisfy_all_eq_spec (sqrt : α → α) (cs : List (Constraint α))
    (ps : List (Particle α)) : satisfy_all sqrt cs ps = spec_relaxation_pass sqrt cs ps := by
  unfold satisfy_all spec_relaxation_pass
  induction cs generalizing ps with
  | nil => rfl
  | cons c rest ih =>
    cases h : c.active with
    | false =>
      simp only [List.foldl_cons, Constraint.satisfy_inactive_eq sqrt c ps h]
      rw [ih, List.filter_cons_of_neg (by simp [h])]
    | true =>
      simp only [List.foldl_cons]
      rw [ih, List.filter_cons_of_pos (by simp [h])]
      rfl

theorem relax_eq_spec (sqrt : α → α) (cs : List (Constraint α)) (n : Nat)
    (ps : List (Particle α)) : relax sqrt cs n ps = spec_relaxation sqrt cs n ps := by
  induction n generalizing ps with
  | zero => rfl
  | succ n ih => simp only [relax, spec_relaxation, satisfy_all_eq_spec, ih]

/-- C19: the coded step (one loop doing `apply_force`, `update`, `constrain_to_bounds`
per particle, then five sweeps of `satisfy()` over all links) gives the same world as the
specified pipeline (force on all, then integrate all, then clamp all, then `K = 5` sweeps
over the active links), for every world, force, time step and bounds. -/
theorem C19_simulation_step_refines_spec (sqrt : α → α) (force : Vec2 α)
    (dt width height : Flt α) (w : World α) :
    simulation_step sqrt force dt width height w =
      spec_simulation_step sqrt 5 force dt width height w := by
  simp only [simulation_step, spec_simulation_step, relax_eq_spec, List.map_map]
  rfl

/-- A pinned particle leaves the physics loop with only the boundary clamp applied. -/
theorem physics_step_pinned (force : Vec2 α) (dt width height : Flt α) (p : Particle α)
    (hp : p.is_pinned = true) :
    physics_step force dt width height p = p.constrain_to_bounds width height := by
  rw [physics_step, Particle.apply_force_pinned p force hp, Particle.update_pinned p dt hp]

theorem satisfy_all_pinned (sqrt : α → α) (cs : List (Constraint α)) (ps : List (Particle α))
    (i : Nat) (p : Particle α) (hi : ps[i]? = some p) (hp : p.is_pinned = true) :
    (satisfy_all sqrt cs ps)[i]? = some p := by
  unfold satisfy_all
  induction cs generalizing ps with
  | nil => exact hi
  | cons c rest ih => exact ih (c.satisfy sqrt ps) (Constraint.satisfy_pinned sqrt c ps i p hi hp)

theorem relax_pinned (sqrt : α → α) (cs : List (Constraint α)) (n : Nat)
    (ps : List (Particle α)) (i : Nat) (p : Particle α) (hi : ps[i]? = some p)
    (hp : p.is_pinned = true) : (relax sqrt cs n ps)[i]? = some p := by
  induction n generalizing ps with
  | zero => exact hi
  | succ n ih => exact ih _ (satisfy_all_pinned sqrt cs ps i p hi hp)

/-- After one step a pinned particle is its clamped self. -/
theorem simulation_step_pinned (sqrt : α → α) (force : Vec2 α) (dt width height : Flt α)
    (w : World α) (i : Nat) (p : Particle α) (hi : w.particles[i]? = some p)
    (hp : p.is_pinned = true) :
    (simulation_step sqrt force dt width height w).particles[i]? =
      some (p.constrain_to_bounds width height) := by
  unfold simulation_step
  apply relax_pinned
  · rw [List.getElem?_map, hi, Option.map_some', physics_step_pinned force dt width height p hp]
  · simpa [Particle.constrain_to_bounds] using hp

/-- C17 as stated fails: a pinned particle at `(-5, 10)`, outside the bounds
`1080 x 640`, is at `(0, 10)` after one step. -/
theorem C17_counterexample_pinned_outside_bounds :
    ((simulation_step Real.sqrt ⟨Flt.fin 0, Flt.fin 10⟩ (Flt.fin 0.1) (Flt.fin 1080)
        (Flt.fin 640) ⟨[Particle.new (Flt.fin (-5)) (Flt.fin 10) true], []⟩).particles[0]?).map
      Particle.position = some ⟨Flt.fin 0, Flt.fin 10⟩ ∧
    (⟨Flt.fin 0, Flt.fin 10⟩ : Vec2 ℝ) ≠ ⟨Flt.fin (-5), Flt.fin 10⟩ := by
  constructor
  · rw [simulation_step_pinned Real.sqrt ⟨Flt.fin 0, Flt.fin 10⟩ (Flt.fin 0.1) (Flt.fin 1080)
      (Flt.fin 640) ⟨[Particle.new (Flt.fin (-5)) (Flt.fin 10) true], []⟩ 0
      (Particle.new (Flt.fin (-5)) (Flt.fin 10) true) rfl rfl]
    norm_num [Particle.constrain_to_bounds, Particle.new]
  · intro h
    have := congrArg Vec2.x h
    norm_num at this

/-- Clamping twice is clamping once. -/
theorem Particle.constrain_to_bounds_twice (p : Particle α) (width height : Flt α) :
    (p.constrain_to_bounds width height).constrain_to_bounds width height =
      p.constrain_to_bounds width height := by
  simp only [Particle.constrain_to_bounds, clamp_axis_idem]

/-- C17 (amended): a pinned particle is changed by the boundary clamp only.  For every
force, time step, bounds and links, the pinned particle `p` of slot `i` is
`p.constrain_to_bounds width height` after one step and after any number `n ≥ 1` of
steps; its previous position, accumulated force and pinned flag are kept.  For a numeric
position `(x, y)` and numeric bounds `W, H ≥ 0` the new position is
`(min (max x 0) W, min (max y 0) H)`: a coordinate below `0` is moved to `0` and a
coordinate above its bound is moved onto the bound.  A pinned particle whose position is
inside `[0,W] x [0,H]` is the same particle after one step and after any number of
steps. -/
theorem C17_pinned_moved_by_clamp_only (sqrt : α → α) (force : Vec2 α)
    (dt width height : Flt α) (w : World α) (i : Nat) (p : Particle α)
    (hi : w.particles[i]? = some p) (hp : p.is_pinned = true) :
    (simulation_step sqrt force dt width height w).particles[i]? =
      some (p.constrain_to_bounds width height) ∧
    (∀ n : Nat, ((simulation_step sqrt force dt width height)^[n + 1] w).particles[i]? =
      some (p.constrain_to_bounds width height)) ∧
    ((p.constrain_to_bounds width height).previous_position = p.previous_position ∧
      (p.constrain_to_bounds width height).acceleration = p.acceleration ∧
      (p.constrain_to_bounds width height).is_pinned = true) ∧
    (∀ x y W H : α, p.position = ⟨Flt.fin x, Flt.fin y⟩ → width = Flt.fin W →
      height = Flt.fin H → 0 ≤ W → 0 ≤ H →
      (p.constrain_to_bounds width height).position =
          ⟨Flt.fin (min (max x 0) W), Flt.fin (min (max y 0) H)⟩ ∧
        (x < 0 → min (max x 0) W = 0) ∧ (W < x → min (max x 0) W = W) ∧
        (y < 0 → min (max y 0) H = 0) ∧ (H < y → min (max y 0) H = H)) ∧
    (∀ x y W H : α, p.position = ⟨Flt.fin x, Flt.fin y⟩ → width = Flt.fin W →
      height = Flt.fin H → 0 ≤ x → x ≤ W → 0 ≤ y → y ≤ H →
      p.constrain_to_bounds width height = p ∧
        ∀ n : Nat, ((simulation_step sqrt force dt width height)^[n] w).particles[i]? =
          some p) := by
  have hpin : (p.constrain_to_bounds width height).is_pinned = true := by
    simpa [Particle.constrain_to_bounds] using hp
  have hiter : ∀ n : Nat,
      ((simulation_step sqrt force dt width height)^[n + 1] w).particles[i]? =
        some (p.constrain_to_bounds width height) := by
    intro n
    induction n with
    | zero => exact simulation_step_pinned sqrt force dt width height w i p hi hp
    | succ n ih =>
      rw [Function.iterate_succ_apply',
        simulation_step_pinned sqrt force dt width height _ i _ ih hpin,
        Particle.constrain_to_bounds_twice]
  refine ⟨simulation_step_pinned sqrt force dt width height w i p hi hp, hiter,
    ⟨rfl, rfl, hpin⟩, ?_, ?_⟩
  · intro x y W H hpos hW hH hW0 hH0
    subst hW hH
    refine ⟨?_, ?_, ?_, ?_, ?_⟩
    · simp only [Particle.constrain_to_bounds, hpos, clamp_axis_fin]
    · intro hx
      rw [max_eq_right (le_of_lt hx), min_eq_left hW0]
    · intro hx
      rw [max_eq_left (le_trans hW0 (le_of_lt hx)), min_eq_right (le_of_lt hx)]
    · intro hy
      rw [max_eq_right (le_of_lt hy), min_eq_left hH0]
    · intro hy
      rw [max_eq_left (le_trans hH0 (le_of_lt hy)), min_eq_right (le_of_lt hy)]
  · intro x y W H hpos hW hH hx0 hxW hy0 hyH
    subst hW hH
    have hclamp : p.constrain_to_bounds (Flt.fin W) (Flt.fin H) = p := by
      simp only [Particle.constrain_to_bounds, hpos, clamp_axis_fin, max_eq_left hx0,
        max_eq_left hy0, min_eq_left hxW, min_eq_left hyH]
      rw [← hpos]
    refine ⟨hclamp, fun n => ?_⟩
    cases n with
    | zero => exact hi
    | succ n => rw [hiter n, hclamp]

/-- C17 (amended) under gravity, with the bounds `1080 x 640` and a link to a free
particle: a pinned particle at `(-5, 700)` is at `(0, 640)` after one step and after
three steps, and a pinned particle at `(360, 213)` is unchanged after three steps. -/
theorem C17_pinned_moved_by_clamp_only_witness :
    (simulation_step Real.sqrt ⟨Flt.fin 0, Flt.fin 10⟩ (Flt.fin 0.1) (Flt.fin 1080)
        (Flt.fin 640)
        ⟨[Particle.new (Flt.fin (-5)) (Flt.fin 700) true,
            Particle.new (Flt.fin 360) (Flt.fin 243) false],
          [⟨0, 1, Flt.fin 30, true⟩]⟩).particles[0]? =
      some ((Particle.new (Flt.fin (-5 : ℝ)) (Flt.fin 700) true).constrain_to_bounds
        (Flt.fin 1080) (Flt.fin 640)) ∧
    ((simulation_step Real.sqrt ⟨Flt.fin 0, Flt.fin 10⟩ (Flt.fin 0.1) (Flt.fin 1080)
        (Flt.fin 640))^[2 + 1]
        ⟨[Particle.new (Flt.fin (-5)) (Flt.fin 700) true,
            Particle.new (Flt.fin 360) (Flt.fin 243) false],
          [⟨0, 1, Flt.fin 30, true⟩]⟩).particles[0]? =
      some ((Particle.new (Flt.fin (-5 : ℝ)) (Flt.fin 700) true).constrain_to_bounds
        (Flt.fin 1080) (Flt.fin 640)) ∧
    ((Particle.new (Flt.fin (-5 : ℝ)) (Flt.fin 700) true).constrain_to_bounds
        (Flt.fin 1080) (Flt.fin 640)).position =
      ⟨Flt.fin (min (max (-5) 0) 1080), Flt.fin (min (max 700 0) 640)⟩ ∧
    min (max (-5 : ℝ) 0) 1080 = 0 ∧ min (max (700 : ℝ) 0) 640 = 640 ∧
    ((simulation_step Real.sqrt ⟨Flt.fin 0, Flt.fin 10⟩ (Flt.fin 0.1) (Flt.fin 1080)
        (Flt.fin 640))^[3]
        ⟨[Particle.new (Flt.fin 360) (Flt.fin 213) true,
            Particle.new (Flt.fin 360) (Flt.fin 243) false],
          [⟨0, 1, Flt.fin 30, true⟩]⟩).particles[0]? =
      some (Particle.new (Flt.fin 360) (Flt.fin 213) true) := by
  have h := C17_pinned_moved_by_clamp_only Real.sqrt ⟨Flt.fin 0, Flt.fin 10⟩ (Flt.fin 0.1)
    (Flt.fin 1080) (Flt.fin 640)
    ⟨[Particle.new (Flt.fin (-5)) (Flt.fin 700) true,
        Particle.new (Flt.fin 360) (Flt.fin 243) false], [⟨0, 1, Flt.fin 30, true⟩]⟩
    0 (Particle.new (Flt.fin (-5 : ℝ)) (Flt.fin 700) true) rfl rfl
  have h' := C17_pinned_moved_by_clamp_only Real.sqrt ⟨Flt.fin 0, Flt.fin 10⟩ (Flt.fin 0.1)
    (Flt.fin 1080) (Flt.fin 640)
    ⟨[Particle.new (Flt.fin 360) (Flt.fin 213) true,
        Particle.new (Flt.fin 360) (Flt.fin 243) false], [⟨0, 1, Flt.fin 30, true⟩]⟩
    0 (Particle.new (Flt.fin 360) (Flt.fin 213) true) rfl rfl
  obtain ⟨hpos, hx, _, _, hy⟩ := h.2.2.2.1 (-5) 700 1080 640 rfl rfl rfl (by norm_num)
    (by norm_num)
  exact ⟨h.1, h.2.1 2, hpos, hx (by norm_num), hy (by norm_num),
    (h'.2.2.2.2 360 213 1080 640 rfl rfl rfl (by norm_num) (by norm_num) (by norm_num)
      (by norm_num)).2 3⟩

theorem satisfy_all_length (sqrt : α → α) (cs : List (Constraint α)) (ps : List (Particle α)) :
    (satisfy_all sqrt cs ps).length = ps.length := by
  unfold satisfy_all
  induction cs generalizing ps with
  | nil => rfl
  | cons c rest ih => simp only [List.foldl_cons, ih, Constraint.satisfy_length]

/-- Every operation leaves the link vector as it is or deactivates one element. -/
theorem Operation.run_constraints (sqrt : α → α) (op : Operation α) (w : World α) :
    (op.run sqrt w).constraints = w.constraints ∨
      ∃ k, (op.run sqrt w).constraints = w.constraints.modify Constraint.deactivate k := by
  cases op with
  | satisfy k =>
    left
    simp only [Operation.run]
    split <;> rfl
  | deactivate k => exact Or.inr ⟨k, rfl⟩
  | tear_cloth mx my =>
    simp only [Operation.run, ParticleSim.tear_cloth]
    split
    · exact Or.inr ⟨_, rfl⟩
    · exact Or.inl rfl
  | simulation_step force dt width height => exact Or.inl rfl

/-- One operation keeps every link in its slot with the same endpoints and rest length,
and keeps an inactive link inactive. -/
theorem Operation.run_link (sqrt : α → α) (op : Operation α) (w : World α) (j : Nat)
    (cj : Constraint α) (hj : w.constraints[j]? = some cj) :
    ∃ cj', (op.run sqrt w).constraints[j]? = some cj' ∧
      cj'.initial_length = cj.initial_length ∧ cj'.p1 = cj.p1 ∧ cj'.p2 = cj.p2 ∧
      (cj.active = false → cj'.active = false) := by
  rcases Operation.run_constraints sqrt op w with h | ⟨k, h⟩
  · exact ⟨cj, by rw [h, hj], rfl, rfl, rfl, fun h => h⟩
  · rw [h, List.getElem?_modify, hj]
    by_cases hk : k = j
    · exact ⟨cj.deactivate, by simp [hk], rfl, rfl, rfl, fun _ => rfl⟩
    · exact ⟨cj, by simp [hk], rfl, rfl, rfl, fun h => h⟩

/-- C18: along any finite sequence of core operations (`satisfy`, `deactivate`,
`tear_cloth`, simulation steps) from any mesh state, every link stays in its slot with the
same endpoints and the same rest length, and a link that is inactive stays inactive;
`deactivate()` on an inactive link changes nothing. -/
theorem C18_link_activity_monotone (sqrt : α → α) (ops : List (Operation α)) (w : World α)
    (j : Nat) (cj : Constraint α) (hj : w.constraints[j]? = some cj) :
    (∃ cj', (run_operations sqrt ops w).constraints[j]? = some cj' ∧
      cj'.initial_length = cj.initial_length ∧ cj'.p1 = cj.p1 ∧ cj'.p2 = cj.p2 ∧
      (cj.active = false → cj'.active = false)) ∧
    (cj.active = false → cj.deactivate = cj) := by
  constructor
  · unfold run_operations
    induction ops generalizing w cj with
    | nil => exact ⟨cj, hj, rfl, rfl, rfl, fun h => h⟩
    | cons op rest ih =>
      obtain ⟨c1, h1, hl, hp1, hp2, hact⟩ := Operation.run_link sqrt op w j cj hj
      obtain ⟨c2, h2, hl2, hq1, hq2, hact2⟩ := ih (op.run sqrt w) c1 h1
      exact ⟨c2, h2, hl2.trans hl, hq1.trans hp1, hq2.trans hp2, fun h => hact2 (hact h)⟩
  · intro h
    cases cj
    simp only [Constraint.deactivate] at *
    simp [h]

/-- C18 on the 2x2 mesh with link 0 torn: a simulation step under gravity, a click on
the torn link, a `satisfy()` and a `deactivate()` of link 1 leave link 0 inactive with
rest length 30. -/
theorem C18_link_activity_monotone_witness :
    (∃ cj', (run_operations Real.sqrt
        [Operation.simulation_step ⟨Flt.fin 0, Flt.fin 10⟩ (Flt.fin 0.1) (Flt.fin 1080)
            (Flt.fin 640),
          Operation.tear_cloth (Flt.fin 375) (Flt.fin 213), Operation.satisfy 0,
          Operation.deactivate 1]
        (tear_cloth Real.sqrt (Flt.fin 375) (Flt.fin 213)
          (build_world Real.sqrt 2 2 (30 : ℝ) 1080 640))).constraints[0]? = some cj' ∧
      cj'.initial_length = Flt.fin 30 ∧ cj'.p1 = 0 ∧ cj'.p2 = 1 ∧
      ((false : Bool) = false → cj'.active = false)) ∧
    ((false : Bool) = false →
      Constraint.deactivate (⟨0, 1, Flt.fin 30, false⟩ : Constraint ℝ) =
        ⟨0, 1, Flt.fin 30, false⟩) :=
  C18_link_activity_monotone Real.sqrt _ _ 0 ⟨0, 1, Flt.fin 30, false⟩
    (by rw [tear_cloth_2x2_top_link]; rfl)

end StepProperties

/-! ### Zero-length segments -/

section Singularities

variable {α : Type} [LinearOrderedField α]

/-- C15, evaluated: two particles at the same point `(360, 640)` joined by an active link
of rest length 30.  `satisfy()` has no special case: the current length is 0, the
division by it gives an invalid `difference`, and the position of every unpinned endpoint
becomes invalid (both when both are free, `p2` alone when `p1` is pinned). -/
theorem C15_satisfy_zero_length_invalidates_positions :
    Constraint.current_length Real.sqrt ⟨0, 1, Flt.fin 30, true⟩
        [Particle.new (Flt.fin 360) (Flt.fin 640) false,
          Particle.new (Flt.fin 360) (Flt.fin 640) false] = Flt.fin 0 ∧
    Constraint.difference Real.sqrt ⟨0, 1, Flt.fin 30, true⟩
        [Particle.new (Flt.fin 360) (Flt.fin 640) false,
          Particle.new (Flt.fin 360) (Flt.fin 640) false] = Flt.nan ∧
    Constraint.satisfy Real.sqrt ⟨0, 1, Flt.fin 30, true⟩
        [Particle.new (Flt.fin 360) (Flt.fin 640) false,
          Particle.new (Flt.fin 360) (Flt.fin 640) false] =
      [⟨⟨Flt.nan, Flt.nan⟩, ⟨Flt.fin 360, Flt.fin 640⟩, ⟨Flt.fin 0, Flt.fin 0⟩, false⟩,
        ⟨⟨Flt.nan, Flt.nan⟩, ⟨Flt.fin 360, Flt.fin 640⟩, ⟨Flt.fin 0, Flt.fin 0⟩, false⟩] ∧
    Constraint.satisfy Real.sqrt ⟨0, 1, Flt.fin 30, true⟩
        [Particle.new (Flt.fin 360) (Flt.fin 640) true,
          Particle.new (Flt.fin 360) (Flt.fin 640) false] =
      [Particle.new (Flt.fin 360) (Flt.fin 640) true,
        ⟨⟨Flt.nan, Flt.nan⟩, ⟨Flt.fin 360, Flt.fin 640⟩, ⟨Flt.fin 0, Flt.fin 0⟩, false⟩] := by
  refine ⟨?_, ?_, ?_, ?_⟩
  · simp [Constraint.current_length, Constraint.delta, deref, Particle.new, Flt.hypot]
  · simp [Constraint.difference, Constraint.current_length, Constraint.delta, deref,
      Particle.new, Flt.hypot]
  · simp [Constraint.satisfy, Constraint.correction, Constraint.difference,
      Constraint.current_length, Constraint.delta, deref, Particle.new, Flt.hypot, Vec2.scale]
    constructor <;> ext <;> simp
  · simp [Constraint.satisfy, Constraint.correction, Constraint.difference,
      Constraint.current_length, Constraint.delta, deref, Particle.new, Flt.hypot, Vec2.scale]
    ext <;> simp

/-- C16, evaluated: with coincident endpoints the function divides `0` by `0` and returns
the invalid value for every numeric query and endpoint, not the distance to the point;
a zero-length link between two particles at `(5, 3)` is therefore not found by a click
on `(5, 3)`. -/
theorem C16_point_to_segment_distance_degenerate_invalid :
    (∀ px py x1 y1 : ℝ,
      point_to_segment_distance Real.sqrt (Flt.fin px) (Flt.fin py) (Flt.fin x1) (Flt.fin y1)
        (Flt.fin x1) (Flt.fin y1) = Flt.nan) ∧
    point_to_segment_distance Real.sqrt (Flt.fin 8) (Flt.fin 7) (Flt.fin 5) (Flt.fin 3)
        (Flt.fin 5) (Flt.fin 3) ≠ Flt.fin 5 ∧
    find_nearest_constraint Real.sqrt (Flt.fin 5) (Flt.fin 3)
        [Particle.new (Flt.fin 5) (Flt.fin 3) false, Particle.new (Flt.fin 5) (Flt.fin 3) false]
        [⟨0, 1, Flt.fin 0, true⟩] = none := by
  refine ⟨fun px py x1 y1 => point_to_segment_distance_degenerate Real.sqrt px py x1 y1, ?_, ?_⟩
  · rw [point_to_segment_distance_degenerate]
    simp
  · simp [find_nearest_constraint, find_nearest_loop, constraint_distance, deref, Particle.new,
      point_to_segment_distance_degenerate]

omit [LinearOrderedField α] in
/-- A write that changes `position` only keeps the other fields of every slot. -/
theorem getElem?_modify_frame (f : Particle α → Particle α)
    (hf : ∀ q, (f q).previous_position = q.previous_position ∧
      (f q).acceleration = q.acceleration ∧ (f q).is_pinned = q.is_pinned)
    (ps : List (Particle α)) (k i : Nat) (q : Particle α) (h : ps[i]? = some q) :
    ∃ q', (ps.modify f k)[i]? = some q' ∧ q'.previous_position = q.previous_position ∧
      q'.acceleration = q.acceleration ∧ q'.is_pinned = q.is_pinned := by
  rw [List.getElem?_modify, h]
  by_cases hk : k = i
  · exact ⟨f q, by simp [hk], hf q⟩
  · exact ⟨q, by simp [hk], rfl, rfl, rfl⟩

/-- The function `satisfy` writes positions only. -/
theorem Constraint.satisfy_frame (sqrt : α → α) (c : Constraint α) (ps : List (Particle α))
    (i : Nat) (q : Particle α) (h : ps[i]? = some q) :
    ∃ q', (c.satisfy sqrt ps)[i]? = some q' ∧ q'.previous_position = q.previous_position ∧
      q'.acceleration = q.acceleration ∧ q'.is_pinned = q.is_pinned := by
  unfold Constraint.satisfy
  split
  · exact ⟨q, h, rfl, rfl, rfl⟩
  · obtain ⟨q1, h1, e1, e2, e3⟩ := getElem?_modify_frame
      (fun p => if !p.is_pinned then
        { p with position := p.position + c.correction sqrt ps } else p)
      (fun p => by cases hq : p.is_pinned <;> simp [hq]) ps c.p1 i q h
    obtain ⟨q2, h2, f1, f2, f3⟩ := getElem?_modify_frame
      (fun p => if !p.is_pinned then
        { p with position := p.position - c.correction sqrt ps } else p)
      (fun p => by cases hq : p.is_pinned <;> simp [hq]) _ c.p2 i q1 h1
    exact ⟨q2, h2, f1.trans e1, f2.trans e2, f3.trans e3⟩

/-- C20, evaluated: two free particles at `(3, 4)` joined by an active link of rest
length 30 have position sum `(6, 8)` before `satisfy()`.  The code has no guard for the
zero current length: the corrections are invalid, not equal and opposite numbers, and
the position sum after the call is invalid. -/
theorem C20_satisfy_zero_length_loses_midpoint :
    (Particle.new (Flt.fin 3) (Flt.fin 4) false : Particle ℝ).position +
        (Particle.new (Flt.fin 3) (Flt.fin 4) false : Particle ℝ).position
      = ⟨Flt.fin 6, Flt.fin 8⟩ ∧
    ∃ a' b', (Constraint.satisfy Real.sqrt ⟨0, 1, Flt.fin 30, true⟩
          [Particle.new (Flt.fin 3) (Flt.fin 4) false,
            Particle.new (Flt.fin 3) (Flt.fin 4) false])[0]? = some a' ∧
      (Constraint.satisfy Real.sqrt ⟨0, 1, Flt.fin 30, true⟩
          [Particle.new (Flt.fin 3) (Flt.fin 4) false,
            Particle.new (Flt.fin 3) (Flt.fin 4) false])[1]? = some b' ∧
      a'.position + b'.position = ⟨Flt.nan, Flt.nan⟩ ∧
      a'.position + b'.position ≠ ⟨Flt.fin 6, Flt.fin 8⟩ := by
  have h : Constraint.satisfy Real.sqrt ⟨0, 1, Flt.fin 30, true⟩
      [Particle.new (Flt.fin 3) (Flt.fin 4) false, Particle.new (Flt.fin 3) (Flt.fin 4) false] =
      [⟨⟨Flt.nan, Flt.nan⟩, ⟨Flt.fin 3, Flt.fin 4⟩, ⟨Flt.fin 0, Flt.fin 0⟩, false⟩,
        ⟨⟨Flt.nan, Flt.nan⟩, ⟨Flt.fin 3, Flt.fin 4⟩, ⟨Flt.fin 0, Flt.fin 0⟩, false⟩] := by
    simp [Constraint.satisfy, Constraint.correction, Constraint.difference,
      Constraint.current_length, Constraint.delta, deref, Particle.new, Flt.hypot, Vec2.scale]
    constructor <;> ext <;> simp
  refine ⟨?_, _, _, by rw [h]; rfl, by rw [h]; rfl, ?_, ?_⟩
  · ext <;> simp [Particle.new] <;> norm_num
  · ext <;> simp
  · intro e
    have := congrArg Vec2.x e
    simp at this

/-- In exact real arithmetic: on a link with both endpoints unpinned whose current length
is a non-zero number and whose rest length is a number, `satisfy()` keeps
`p1.position + p2.position`. -/
theorem Constraint.satisfy_free_keeps_position_sum (c : Constraint ℝ)
    (ps : List (Particle ℝ)) (a b : Particle ℝ) (L L0 : ℝ) (ha : ps[c.p1]? = some a)
    (hb : ps[c.p2]? = some b) (hpa : a.is_pinned = false) (hpb : b.is_pinned = false)
    (hlen : c.current_length Real.sqrt ps = Flt.fin L) (hL : L ≠ 0)
    (hL0 : c.initial_length = Flt.fin L0) :
    ∃ a' b', (c.satisfy Real.sqrt ps)[c.p1]? = some a' ∧
      (c.satisfy Real.sqrt ps)[c.p2]? = some b' ∧
      a'.position + b'.position = a.position + b.position := by
  cases hact : c.active with
  | false =>
    rw [Constraint.satisfy_inactive_eq Real.sqrt c ps hact]
    exact ⟨a, b, ha, hb, rfl⟩
  | true =>
    have hne := Constraint.endpoints_ne c ps L hlen hL
    obtain ⟨hw1, hw2⟩ := Constraint.satisfy_writes Real.sqrt c ps a b ha hb hne hact
    obtain ⟨ax, ay, bx, bY, hapos, hbpos, _, hcorr⟩ :=
      Constraint.correction_eq c ps L L0 hlen hL hL0
    rw [deref_eq ps _ _ ha] at hapos
    rw [deref_eq ps _ _ hb] at hbpos
    refine ⟨_, _, hw1, hw2, ?_⟩
    simp only [hpa, hpb, Bool.false_eq_true, if_false, hcorr, hapos, hbpos]
    ext <;> simp

end Singularities

/-! ### Mesh construction -/

section MeshProperties

variable {α : Type} [LinearOrderedField α]

theorem build_particles_succ (ROW COL : Nat) (d : α) (W H : Nat) :
    build_particles (ROW + 1) COL d W H =
      build_particles ROW COL d W H ++
        (List.range COL).map fun col => grid_particle d W H ROW col := by
  simp [build_particles, List.range_succ]

theorem build_particles_length (ROW COL : Nat) (d : α) (W H : Nat) :
    (build_particles ROW COL d W H).length = ROW * COL := by
  induction ROW with
  | zero => simp [build_particles]
  | succ n ih => rw [build_particles_succ, List.length_append, ih]; simp [Nat.succ_mul]

/-- The particle of grid cell `(row, col)` is stored at index `row * COL + col`. -/
theorem build_particles_getElem? (ROW COL : Nat) (d : α) (W H : Nat) (row col : Nat)
    (hr : row < ROW) (hc : col < COL) :
    (build_particles ROW COL d W H)[row * COL + col]? = some (grid_particle d W H row col) := by
  induction ROW with
  | zero => omega
  | succ n ih =>
    rw [build_particles_succ]
    by_cases h : row < n
    · have hlt : row * COL + col < (build_particles n COL d W H).length := by
        rw [build_particles_length]
        calc row * COL + col < row * COL + COL := by omega
          _ = (row + 1) * COL := by rw [Nat.succ_mul]
          _ ≤ n * COL := Nat.mul_le_mul_right COL h
      rw [List.getElem?_append_left hlt]
      exact ih h
    · have hrn : row = n := by omega
      subst hrn
      rw [List.getElem?_append_right (by rw [build_particles_length]; omega),
        build_particles_length]
      simp [List.getElem?_range hc]

/-- Every particle of the mesh is the particle of some grid cell. -/
theorem build_particles_mem (ROW COL : Nat) (d : α) (W H : Nat) (p : Particle α)
    (hp : p ∈ build_particles ROW COL d W H) :
    ∃ row col, row < ROW ∧ col < COL ∧ p = grid_particle d W H row col := by
  simp only [build_particles, List.mem_flatten, List.mem_map, List.mem_range] at hp
  obtain ⟨l, ⟨row, hr, rfl⟩, hp⟩ := hp
  simp only [List.mem_map, List.mem_range] at hp
  obtain ⟨col, hc, rfl⟩ := hp
  exact ⟨row, col, hr, hc, rfl⟩

/-- Every link of the mesh comes from the loop body of some grid cell. -/
theorem build_constraints_mem (sqrt : α → α) (ps : List (Particle α)) (ROW COL : Nat)
    (c : Constraint α) :
    c ∈ build_constraints sqrt ps ROW COL ↔
      ∃ row col, row < ROW ∧ col < COL ∧ c ∈ cell_constraints sqrt ps ROW COL row col := by
  simp only [build_constraints, List.mem_flatten, List.mem_map, List.mem_range]
  constructor
  · rintro ⟨l, ⟨row, hr, rfl⟩, hc'⟩
    simp only [List.mem_flatten, List.mem_map, List.mem_range] at hc'
    obtain ⟨l', ⟨col, hc, rfl⟩, hc'⟩ := hc'
    exact ⟨row, col, hr, hc, hc'⟩
  · rintro ⟨row, col, hr, hc, hc'⟩
    refine ⟨_, ⟨row, hr, rfl⟩, ?_⟩
    simp only [List.mem_flatten, List.mem_map, List.mem_range]
    exact ⟨_, ⟨col, hc, rfl⟩, hc'⟩

/-- The horizontal link of cell `(row, col)` as the constructor records it. -/
theorem grid_link_horizontal (ROW COL : Nat) (d : ℝ) (W H : Nat) (hd : 0 < d) (row col : Nat)
    (hr : row < ROW) (hc : col + 1 < COL) :
    Constraint.new Real.sqrt (build_particles ROW COL d W H) (row * COL + col)
        (row * COL + col + 1) =
      ⟨row * COL + col, row * COL + col + 1, Flt.fin d, true⟩ := by
  have h1 := build_particles_getElem? ROW COL d W H row col hr (by omega)
  have h2 := build_particles_getElem? ROW COL d W H row (col + 1) hr hc
  rw [← Nat.add_assoc] at h2
  simp only [Constraint.new, deref_eq _ _ _ h1, deref_eq _ _ _ h2, grid_particle, Particle.new,
    Flt.hypot, Flt.fin_sub_fin, Flt.fin_mul_fin, Flt.fin_add_fin, Flt.sqrt_fin,
    if_neg (sum_sq_not_neg _ _)]
  congr 2
  have e : ((((col + 1 : ℕ) : ℝ) * d + ((W / 3 : ℕ) : ℝ)) - ((col : ℝ) * d + ((W / 3 : ℕ) : ℝ))) *
      ((((col + 1 : ℕ) : ℝ) * d + ((W / 3 : ℕ) : ℝ)) - ((col : ℝ) * d + ((W / 3 : ℕ) : ℝ))) +
      (((row : ℝ) * d + ((H / 3 : ℕ) : ℝ)) - ((row : ℝ) * d + ((H / 3 : ℕ) : ℝ))) *
      (((row : ℝ) * d + ((H / 3 : ℕ) : ℝ)) - ((row : ℝ) * d + ((H / 3 : ℕ) : ℝ))) = d * d := by
    push_cast
    ring
  rw [e, Real.sqrt_mul_self (le_of_lt hd)]

/-- The vertical link of cell `(row, col)` as the constructor records it. -/
theorem grid_link_vertical (ROW COL : Nat) (d : ℝ) (W H : Nat) (hd : 0 < d) (row col : Nat)
    (hr : row + 1 < ROW) (hc : col < COL) :
    Constraint.new Real.sqrt (build_particles ROW COL d W H) (row * COL + col)
        ((row + 1) * COL + col) =
      ⟨row * COL + col, (row + 1) * COL + col, Flt.fin d, true⟩ := by
  have h1 := build_particles_getElem? ROW COL d W H row col (by omega) hc
  have h2 := build_particles_getElem? ROW COL d W H (row + 1) col hr hc
  simp only [Constraint.new, deref_eq _ _ _ h1, deref_eq _ _ _ h2, grid_particle, Particle.new,
    Flt.hypot, Flt.fin_sub_fin, Flt.fin_mul_fin, Flt.fin_add_fin, Flt.sqrt_fin,
    if_neg (sum_sq_not_neg _ _)]
  congr 2
  have e : (((col : ℝ) * d + ((W / 3 : ℕ) : ℝ)) - ((col : ℝ) * d + ((W / 3 : ℕ) : ℝ))) *
      (((col : ℝ) * d + ((W / 3 : ℕ) : ℝ)) - ((col : ℝ) * d + ((W / 3 : ℕ) : ℝ))) +
      ((((row + 1 : ℕ) : ℝ) * d + ((H / 3 : ℕ) : ℝ)) - ((row : ℝ) * d + ((H / 3 : ℕ) : ℝ))) *
      ((((row + 1 : ℕ) : ℝ) * d + ((H / 3 : ℕ) : ℝ)) - ((row : ℝ) * d + ((H / 3 : ℕ) : ℝ))) =
      d * d := by
    push_cast
    ring
  rw [e, Real.sqrt_mul_self (le_of_lt hd)]

/-- The links emitted for one grid cell. -/
theorem cell_constraints_grid (ROW COL : Nat) (d : ℝ) (W H : Nat) (hd : 0 < d) (row col : Nat)
    (hr : row < ROW) (hc : col < COL) :
    cell_constraints Real.sqrt (build_particles ROW COL d W H) ROW COL row col =
      (if col + 1 < COL then
        [(⟨row * COL + col, row * COL + col + 1, Flt.fin d, true⟩ : Constraint ℝ)] else []) ++
      (if row + 1 < ROW then
        [(⟨row * COL + col, (row + 1) * COL + col, Flt.fin d, true⟩ : Constraint ℝ)]
        else []) := by
  unfold cell_constraints
  by_cases h1 : col + 1 < COL <;> by_cases h2 : row + 1 < ROW <;>
    simp only [h1, h2, if_true, if_false] <;>
    simp only [grid_link_horizontal ROW COL d W H hd row col hr, h1,
      grid_link_vertical ROW COL d W H hd row col, h2, hc]

omit [LinearOrderedField α] in
/-- A write through pointer `k` that fixes the element stored there changes nothing. -/
theorem modify_eq_self_of_fixed {β : Type} (f : β → β) (l : List β) (k : Nat)
    (h : ∀ q, l[k]? = some q → f q = q) : l.modify f k = l := by
  apply List.ext_getElem?
  intro i
  rw [List.getElem?_modify]
  cases hq : l[i]? with
  | none => rfl
  | some q =>
    by_cases hk : k = i
    · subst hk
      simp [h q hq]
    · simp [hk]

/-- A link whose current length is its non-zero rest length has a zero correction:
`satisfy()` returns the particles as they are. -/
theorem Constraint.satisfy_at_rest (c : Constraint ℝ) (ps : List (Particle ℝ)) (L : ℝ)
    (hinit : c.initial_length = Flt.fin L) (hlen : c.current_length Real.sqrt ps = Flt.fin L)
    (hL : L ≠ 0) : c.satisfy Real.sqrt ps = ps := by
  obtain ⟨ax, ay, bx, bY, hapos, hbpos, _, hcorr⟩ :=
    Constraint.correction_eq c ps L L hlen hL hinit
  have hzero : c.correction Real.sqrt ps = ⟨Flt.fin 0, Flt.fin 0⟩ := by
    rw [hcorr]
    simp
  unfold Constraint.satisfy
  split
  · rfl
  · simp only [hzero]
    have h1 : ps.modify (fun p => if (!p.is_pinned) = true then
        { p with position := p.position + ⟨Flt.fin 0, Flt.fin 0⟩ } else p) c.p1 = ps := by
      apply modify_eq_self_of_fixed
      intro q hq
      rw [deref_eq ps _ _ hq] at hapos
      split
      · cases q
        simp only at hapos
        subst hapos
        simp only [Particle.mk.injEq, and_true]
        ext <;> simp
      · rfl
    rw [h1]
    apply modify_eq_self_of_fixed
    intro q hq
    rw [deref_eq ps _ _ hq] at hbpos
    split
    · cases q
      simp only at hbpos
      subst hbpos
      simp only [Particle.mk.injEq, and_true]
      ext <;> simp
    · rfl

theorem satisfy_all_at_rest (cs : List (Constraint ℝ)) (ps : List (Particle ℝ))
    (h : ∀ c ∈ cs, c.satisfy Real.sqrt ps = ps) : satisfy_all Real.sqrt cs ps = ps := by
  unfold satisfy_all
  induction cs with
  | nil => rfl
  | cons c rest ih =>
    rw [List.foldl_cons, h c (List.mem_cons_self _ _)]
    exact ih fun c' hc' => h c' (List.mem_cons_of_mem _ hc')

theorem relax_at_rest (cs : List (Constraint ℝ)) (ps : List (Particle ℝ)) (n : Nat)
    (h : ∀ c ∈ cs, c.satisfy Real.sqrt ps = ps) : relax Real.sqrt cs n ps = ps := by
  induction n with
  | zero => rfl
  | succ n ih => rw [relax, satisfy_all_at_rest cs ps h, ih]

/-- A particle at rest at a point inside the bounds, with no accumulated force, leaves
the physics loop unchanged when the external force is zero. -/
theorem physics_step_at_rest (x y dt W H : ℝ) (pinned : Bool) (hx0 : 0 ≤ x) (hxW : x ≤ W)
    (hy0 : 0 ≤ y) (hyH : y ≤ H) :
    physics_step ⟨Flt.fin 0, Flt.fin 0⟩ (Flt.fin dt) (Flt.fin W) (Flt.fin H)
        (Particle.new (Flt.fin x) (Flt.fin y) pinned) =
      Particle.new (Flt.fin x) (Flt.fin y) pinned := by
  have hclamp : (Particle.new (Flt.fin x) (Flt.fin y) pinned).constrain_to_bounds
      (Flt.fin W) (Flt.fin H) = Particle.new (Flt.fin x) (Flt.fin y) pinned := by
    simp only [Particle.constrain_to_bounds, Particle.new, clamp_axis_fin, max_eq_left hx0,
      max_eq_left hy0, min_eq_left hxW, min_eq_left hyH]
  cases pinned with
  | true => rw [physics_step_pinned _ _ _ _ _ rfl, hclamp]
  | false =>
    have hupd : ((Particle.new (Flt.fin x) (Flt.fin y) false).apply_force
        ⟨Flt.fin 0, Flt.fin 0⟩).update (Flt.fin dt) =
        Particle.new (Flt.fin x) (Flt.fin y) false := by
      simp only [Particle.apply_force, Particle.update, Particle.new, Bool.not_false, if_true,
        Particle.mk.injEq, and_true]
      ext <;> simp
    rw [physics_step, hupd, hclamp]

/-- In the mesh built by `main` with a positive rest distance, every link has a zero
correction. -/
theorem build_constraints_at_rest (ROW COL : Nat) (d : ℝ) (W H : Nat) (hd : 0 < d)
    (c : Constraint ℝ)
    (hc : c ∈ build_constraints Real.sqrt (build_particles ROW COL d W H) ROW COL) :
    c.satisfy Real.sqrt (build_particles ROW COL d W H) = build_particles ROW COL d W H := by
  obtain ⟨row, col, hr, hcol, hmem⟩ := (build_constraints_mem _ _ _ _ _).1 hc
  rw [cell_constraints_grid ROW COL d W H hd row col hr hcol, List.mem_append] at hmem
  rcases hmem with hmem | hmem
  · by_cases h1 : col + 1 < COL
    · rw [if_pos h1, List.mem_singleton] at hmem
      subst hmem
      exact Constraint.satisfy_at_rest _ _ d rfl
        (congrArg Constraint.initial_length (grid_link_horizontal ROW COL d W H hd row col hr h1))
        (ne_of_gt hd)
    · rw [if_neg h1] at hmem
      cases hmem
  · by_cases h2 : row + 1 < ROW
    · rw [if_pos h2, List.mem_singleton] at hmem
      subst hmem
      exact Constraint.satisfy_at_rest _ _ d rfl
        (congrArg Constraint.initial_length
          (grid_link_vertical ROW COL d W H hd row col h2 hcol))
        (ne_of_gt hd)
    · rw [if_neg h2] at hmem
      cases hmem

/-- C11: the mesh built by the construction code of `main` with a positive rest
distance, all grid positions inside the world bounds, is an equilibrium of the
simulation step under zero external force: for every numeric `dt`, one step (physics
loop, then five relaxation sweeps over all links) returns the same world, so every
particle keeps its initial position. -/
theorem C11_rest_configuration_is_equilibrium (ROW COL : Nat) (d : ℝ) (WIDTH HEIGHT : Nat)
    (dt width height : ℝ) (hd : 0 < d)
    (hin : ∀ row col, row < ROW → col < COL →
      (col : ℝ) * d + ((WIDTH / 3 : ℕ) : ℝ) ≤ width ∧
      (row : ℝ) * d + ((HEIGHT / 3 : ℕ) : ℝ) ≤ height) :
    simulation_step Real.sqrt ⟨Flt.fin 0, Flt.fin 0⟩ (Flt.fin dt) (Flt.fin width)
        (Flt.fin height) (build_world Real.sqrt ROW COL d WIDTH HEIGHT) =
      build_world Real.sqrt ROW COL d WIDTH HEIGHT := by
  have hphys : (build_particles ROW COL d WIDTH HEIGHT).map
      (physics_step ⟨Flt.fin 0, Flt.fin 0⟩ (Flt.fin dt) (Flt.fin width) (Flt.fin height)) =
      build_particles ROW COL d WIDTH HEIGHT := by
    have h := List.map_congr_left (l := build_particles ROW COL d WIDTH HEIGHT)
      (f := physics_step ⟨Flt.fin 0, Flt.fin 0⟩ (Flt.fin dt) (Flt.fin width) (Flt.fin height))
      (g := id) (by
        intro p hp
        obtain ⟨row, col, hr, hc, rfl⟩ := build_particles_mem ROW COL d WIDTH HEIGHT p hp
        obtain ⟨hx, hy⟩ := hin row col hr hc
        exact physics_step_at_rest _ _ dt width height _
          (add_nonneg (mul_nonneg (Nat.cast_nonneg _) (le_of_lt hd)) (Nat.cast_nonneg _)) hx
          (add_nonneg (mul_nonneg (Nat.cast_nonneg _) (le_of_lt hd)) (Nat.cast_nonneg _)) hy)
    rw [h, List.map_id]
  simp only [simulation_step, build_world, hphys]
  rw [relax_at_rest _ _ 5 (build_constraints_at_rest ROW COL d WIDTH HEIGHT hd)]

/-- C11 on the 2x2 mesh with rest distance 30, `dt = 0.1` and the bounds `1080 x 640`. -/
theorem C11_rest_configuration_is_equilibrium_witness :
    simulation_step Real.sqrt ⟨Flt.fin 0, Flt.fin 0⟩ (Flt.fin 0.1) (Flt.fin 1080)
        (Flt.fin 640) (build_world Real.sqrt 2 2 (30 : ℝ) 1080 640) =
      build_world Real.sqrt 2 2 (30 : ℝ) 1080 640 :=
  C11_rest_configuration_is_equilibrium 2 2 30 1080 640 0.1 1080 640 (by norm_num) (by
    intro row col hr hc
    interval_cases row <;> interval_cases col <;> norm_num)

/-- The endpoints of the links emitted for one grid cell. -/
theorem cell_constraints_endpoints (sqrt : α → α) (ps : List (Particle α)) (ROW COL : Nat)
    (row col : Nat) (c : Constraint α) (hc : c ∈ cell_constraints sqrt ps ROW COL row col) :
    c.p1 = row * COL + col ∧
      ((col + 1 < COL ∧ c.p2 = row * COL + col + 1) ∨
        (row + 1 < ROW ∧ c.p2 = (row + 1) * COL + col)) := by
  unfold cell_constraints at hc
  rw [List.mem_append] at hc
  rcases hc with hc | hc
  · by_cases h1 : col + 1 < COL
    · rw [if_pos h1, List.mem_singleton] at hc
      subst hc
      exact ⟨rfl, Or.inl ⟨h1, rfl⟩⟩
    · rw [if_neg h1] at hc
      cases hc
  · by_cases h2 : row + 1 < ROW
    · rw [if_pos h2, List.mem_singleton] at hc
      subst hc
      exact ⟨rfl, Or.inr ⟨h2, rfl⟩⟩
    · rw [if_neg h2] at hc
      cases hc

/-- The order used to state the construction order of the links: by first endpoint, then
by second endpoint. -/
theorem cell_constraints_pairwise (sqrt : α → α) (ps : List (Particle α)) (ROW COL : Nat)
    (row col : Nat) :
    (cell_constraints sqrt ps ROW COL row col).Pairwise
      (fun c c' => c.p1 < c'.p1 ∨ (c.p1 = c'.p1 ∧ c.p2 < c'.p2)) := by
  unfold cell_constraints
  by_cases h1 : col + 1 < COL <;> by_cases h2 : row + 1 < ROW <;>
    simp only [h1, h2, if_true, if_false, List.nil_append, List.append_nil,
      List.singleton_append, List.pairwise_cons, List.Pairwise.nil, List.not_mem_nil,
      List.mem_singleton, and_true, forall_eq, false_implies, implies_true, Constraint.new]
  right
  refine ⟨trivial, ?_⟩
  rw [Nat.succ_mul]
  omega

/-- The links of the mesh are emitted in strictly increasing order of
`(p1, p2)`: cell by cell in row-major order, and in a cell the horizontal link
`(k, k + 1)` before the vertical link `(k, k + COL)`. -/
theorem build_constraints_pairwise (sqrt : α → α) (ps : List (Particle α)) (ROW COL : Nat) :
    (build_constraints sqrt ps ROW COL).Pairwise
      (fun c c' => c.p1 < c'.p1 ∨ (c.p1 = c'.p1 ∧ c.p2 < c'.p2)) := by
  unfold build_constraints
  rw [List.pairwise_flatten]
  constructor
  · intro l hl
    simp only [List.mem_map, List.mem_range] at hl
    obtain ⟨row, _, rfl⟩ := hl
    rw [List.pairwise_flatten]
    constructor
    · intro l' hl'
      simp only [List.mem_map, List.mem_range] at hl'
      obtain ⟨col, _, rfl⟩ := hl'
      exact cell_constraints_pairwise sqrt ps ROW COL row col
    · rw [List.pairwise_map]
      refine List.Pairwise.imp ?_ (List.pairwise_lt_range COL)
      intro c1 c2 h12 x hx y hy
      left
      rw [(cell_constraints_endpoints sqrt ps ROW COL row c1 x hx).1,
        (cell_constraints_endpoints sqrt ps ROW COL row c2 y hy).1]
      omega
  · rw [List.pairwise_map]
    refine List.Pairwise.imp_of_mem ?_ (List.pairwise_lt_range ROW)
    intro r1 r2 _ _ h12 x hx y hy
    simp only [List.mem_flatten, List.mem_map, List.mem_range] at hx hy
    obtain ⟨_, ⟨c1, hc1, rfl⟩, hx⟩ := hx
    obtain ⟨_, ⟨c2, _, rfl⟩, hy⟩ := hy
    left
    rw [(cell_constraints_endpoints sqrt ps ROW COL r1 c1 x hx).1,
      (cell_constraints_endpoints sqrt ps ROW COL r2 c2 y hy).1]
    calc r1 * COL + c1 < r1 * COL + COL := by omega
      _ = (r1 + 1) * COL := by rw [Nat.succ_mul]
      _ ≤ r2 * COL := Nat.mul_le_mul_right COL h12
      _ ≤ r2 * COL + c2 := Nat.le_add_right _ _

theorem cell_constraints_length (sqrt : α → α) (ps : List (Particle α)) (ROW COL : Nat)
    (row col : Nat) :
    (cell_constraints sqrt ps ROW COL row col).length =
      (if col + 1 < COL then 1 else 0) + (if row + 1 < ROW then 1 else 0) := by
  unfold cell_constraints
  by_cases h1 : col + 1 < COL <;> by_cases h2 : row + 1 < ROW <;> simp [h1, h2]

/-- The number of links emitted for the first `m` cells of one row. -/
theorem row_constraints_length (sqrt : α → α) (ps : List (Particle α)) (ROW COL : Nat)
    (row m : Nat) :
    (((List.range m).map fun col => cell_constraints sqrt ps ROW COL row col).flatten).length =
      min m (COL - 1) + (if row + 1 < ROW then m else 0) := by
  induction m with
  | zero => simp
  | succ m ih =>
    rw [List.range_succ, List.map_append, List.flatten_append, List.length_append, ih]
    simp only [List.map_cons, List.map_nil, List.flatten_cons, List.flatten_nil,
      List.append_nil, cell_constraints_length]
    by_cases h1 : m + 1 < COL <;> by_cases h2 : row + 1 < ROW <;>
      simp only [h1, h2, if_true, if_false] <;> omega

/-- The number of links emitted for the first `m` rows. -/
theorem rows_constraints_length (sqrt : α → α) (ps : List (Particle α)) (ROW COL : Nat)
    (m : Nat) :
    (((List.range m).map fun row =>
      ((List.range COL).map fun col =>
        cell_constraints sqrt ps ROW COL row col).flatten).flatten).length =
      m * (COL - 1) + min m (ROW - 1) * COL := by
  induction m with
  | zero => simp
  | succ m ih =>
    rw [List.range_succ, List.map_append, List.flatten_append, List.length_append, ih]
    simp only [List.map_cons, List.map_nil, List.flatten_cons, List.flatten_nil,
      List.append_nil, row_constraints_length, Nat.min_self]
    by_cases h2 : m + 1 < ROW
    · rw [if_pos h2, Nat.min_eq_left (by omega : m ≤ ROW - 1),
        Nat.min_eq_left (by omega : m + 1 ≤ ROW - 1), Nat.succ_mul, Nat.succ_mul]
      have : min COL (COL - 1) = COL - 1 := Nat.min_eq_right (Nat.sub_le _ _)
      omega
    · rw [if_neg h2, Nat.min_eq_right (by omega : ROW - 1 ≤ m),
        Nat.min_eq_right (by omega : ROW - 1 ≤ m + 1), Nat.succ_mul]
      have : min COL (COL - 1) = COL - 1 := Nat.min_eq_right (Nat.sub_le _ _)
      omega

theorem build_constraints_length (sqrt : α → α) (ps : List (Particle α)) (ROW COL : Nat) :
    (build_constraints sqrt ps ROW COL).length = ROW * (COL - 1) + (ROW - 1) * COL := by
  unfold build_constraints
  rw [rows_constraints_length, Nat.min_eq_right (Nat.sub_le _ _)]

/-- The links of the mesh built by `main` with a positive rest distance: one horizontal
link for each cell with a right neighbour, one vertical link for each cell with a lower
neighbour, each active with rest length `d`. -/
theorem build_constraints_grid_mem (ROW COL : Nat) (d : ℝ) (W H : Nat) (hd : 0 < d)
    (c : Constraint ℝ) :
    c ∈ build_constraints Real.sqrt (build_particles ROW COL d W H) ROW COL ↔
      ∃ row col, row < ROW ∧ col < COL ∧
        ((col + 1 < COL ∧ c = ⟨row * COL + col, row * COL + col + 1, Flt.fin d, true⟩) ∨
          (row + 1 < ROW ∧ c = ⟨row * COL + col, (row + 1) * COL + col, Flt.fin d, true⟩)) := by
  rw [build_constraints_mem]
  constructor
  · rintro ⟨row, col, hr, hc, hmem⟩
    refine ⟨row, col, hr, hc, ?_⟩
    rw [cell_constraints_grid ROW COL d W H hd row col hr hc, List.mem_append] at hmem
    rcases hmem with hmem | hmem
    · by_cases h1 : col + 1 < COL
      · rw [if_pos h1, List.mem_singleton] at hmem
        exact Or.inl ⟨h1, hmem⟩
      · rw [if_neg h1] at hmem
        cases hmem
    · by_cases h2 : row + 1 < ROW
      · rw [if_pos h2, List.mem_singleton] at hmem
        exact Or.inr ⟨h2, hmem⟩
      · rw [if_neg h2] at hmem
        cases hmem
  · rintro ⟨row, col, hr, hc, h⟩
    refine ⟨row, col, hr, hc, ?_⟩
    rw [cell_constraints_grid ROW COL d W H hd row col hr hc, List.mem_append]
    rcases h with ⟨h1, rfl⟩ | ⟨h2, rfl⟩
    · left
      rw [if_pos h1]
      exact List.mem_singleton.2 rfl
    · right
      rw [if_pos h2]
      exact List.mem_singleton.2 rfl

/-- C12: the second double loop of `main`, on the grid of a positive rest distance `d`,
emits a link for cell `(row, col)` and its right neighbour when there is one, and for
cell `(row, col)` and its lower neighbour when there is one, and nothing else; every link
is active with rest length `d`; there are `ROW * (COL - 1) + (ROW - 1) * COL` links; they
come in strictly increasing order of `(p1, p2)`, which is row-major order of the cells
with the horizontal link of a cell before its vertical link, without duplicates; and no
particle is an endpoint of more than 4 links.  Cell `(row, col)` is the particle of index
`row * COL + col`. -/
theorem C12_mesh_links (ROW COL : Nat) (d : ℝ) (WIDTH HEIGHT : Nat) (hd : 0 < d) :
    (∀ row col, row < ROW → col < COL →
      (build_world Real.sqrt ROW COL d WIDTH HEIGHT).particles[row * COL + col]? =
        some (grid_particle d WIDTH HEIGHT row col)) ∧
    (∀ c : Constraint ℝ, c ∈ (build_world Real.sqrt ROW COL d WIDTH HEIGHT).constraints ↔
      ∃ row col, row < ROW ∧ col < COL ∧
        ((col + 1 < COL ∧ c = ⟨row * COL + col, row * COL + col + 1, Flt.fin d, true⟩) ∨
          (row + 1 < ROW ∧
            c = ⟨row * COL + col, (row + 1) * COL + col, Flt.fin d, true⟩))) ∧
    (build_world Real.sqrt ROW COL d WIDTH HEIGHT).constraints.length =
      ROW * (COL - 1) + (ROW - 1) * COL ∧
    (build_world Real.sqrt ROW COL d WIDTH HEIGHT).constraints.Pairwise
      (fun c c' => c.p1 < c'.p1 ∨ (c.p1 = c'.p1 ∧ c.p2 < c'.p2)) ∧
    ∀ k : Nat, ((build_world Real.sqrt ROW COL d WIDTH HEIGHT).constraints.filter
      fun c => c.p1 = k || c.p2 = k).length ≤ 4 := by
  have hmem := build_constraints_grid_mem ROW COL d WIDTH HEIGHT hd
  have hpw := build_constraints_pairwise Real.sqrt (build_particles ROW COL d WIDTH HEIGHT)
    ROW COL
  refine ⟨fun row col hr hc => build_particles_getElem? ROW COL d WIDTH HEIGHT row col hr hc,
    hmem, build_constraints_length _ _ _ _, hpw, ?_⟩
  intro k
  have hnd : (build_constraints Real.sqrt (build_particles ROW COL d WIDTH HEIGHT)
      ROW COL).Nodup := by
    refine List.Pairwise.imp ?_ hpw
    intro c c' h e
    subst e
    rcases h with h | ⟨_, h⟩ <;> exact lt_irrefl _ h
  have hsub : (build_constraints Real.sqrt (build_particles ROW COL d WIDTH HEIGHT)
      ROW COL).filter (fun c => c.p1 = k || c.p2 = k) ⊆
      [⟨k, k + 1, Flt.fin d, true⟩, ⟨k, k + COL, Flt.fin d, true⟩,
        ⟨k - 1, k, Flt.fin d, true⟩, ⟨k - COL, k, Flt.fin d, true⟩] := by
    intro c hc
    rw [List.mem_filter] at hc
    obtain ⟨hc, hk⟩ := hc
    obtain ⟨row, col, hr, hcol, h⟩ := (hmem c).1 hc
    have hsucc : (row + 1) * COL + col = row * COL + col + COL := by
      rw [Nat.succ_mul]
      omega
    simp only [Bool.or_eq_true, decide_eq_true_eq] at hk
    simp only [List.mem_cons, List.mem_singleton, List.not_mem_nil, or_false]
    rcases h with ⟨_, rfl⟩ | ⟨_, rfl⟩
    · rcases hk with hk | hk
      · simp only at hk
        left
        rw [hk]
      · simp only at hk
        right; right; left
        rw [← hk]
        simp
    · rcases hk with hk | hk
      · simp only at hk
        right; left
        rw [hsucc, hk]
      · simp only at hk
        right; right; right
        rw [← hk, hsucc]
        simp
  exact (List.Nodup.subperm (hnd.filter _) hsub).length_le

/-- C12 on the constants of `main` (`ROW = COL = 10`, `REST_DISTANCE = 30`): the mesh has
`10 * 9 + 9 * 10` links, and no particle is an endpoint of more than 4 of them. -/
theorem C12_mesh_links_witness :
    (0 : ℝ) < 30 ∧
    (build_world Real.sqrt 10 10 (30 : ℝ) 1080 640).constraints.length =
      10 * (10 - 1) + (10 - 1) * 10 ∧
    ∀ k : Nat, ((build_world Real.sqrt 10 10 (30 : ℝ) 1080 640).constraints.filter
      fun c => c.p1 = k || c.p2 = k).length ≤ 4 :=
  ⟨by norm_num, (C12_mesh_links 10 10 30 1080 640 (by norm_num)).2.2.1,
    (C12_mesh_links 10 10 30 1080 640 (by norm_num)).2.2.2.2⟩

end MeshProperties

end ParticleSim
